import Mathlib

/-! # go-comic-converter: volume partitioning and container writing

A shallow embedding of `internal/epub/epub.go` (`ePub.getParts`, `ePub.Write`).

Conventions of the embedding

* Go `int` is 64 bits wide; `Id`, `Part` and `LimitMb` are integers, and the
  conversion `uint64(e.LimitMb * 1024 * 1024)` is reduction modulo `2^64`.
* `uint64` values are naturals below `2^64`; every `uint64` addition of the
  source is followed by an explicit reduction modulo `2^64`.
* A `*epubimage.Image` is a record together with its address `addr`; the pointer
  comparison `img == lastImage` of `Write` compares addresses.
* Go strings are lists of characters, one character per byte.
* The collaborators that are not part of `epub.go` (image loading, image
  storage, the zip writer) are parameters of the model, gathered in `Env`.
-/

namespace epub

/-! ## Data model -/

/-- Page record `epubimage.Image`, restricted to the fields `epub.go` reads,
together with the address of the record. -/
structure Image where
  addr : Nat
  Id : Int
  Part : Int
  DoublePage : Bool
deriving DecidableEq, Repr

/-- Volume record `epubPart` (the zip reader field is never set by `getParts`). -/
structure epubPart where
  Cover : Image
  Images : List Image
deriving DecidableEq, Repr

/-- The fields of `epubimage.Options` read by `epub.go`. -/
structure ImageOptions where
  HasCover : Bool
deriving DecidableEq, Repr

/-- The fields of `epuboptions.Options` read by `getParts` and `Write`. -/
structure Options where
  Output : List Char
  LimitMb : Int
  Dry : Bool
  DryVerbose : Bool
  Image : ImageOptions
deriving DecidableEq, Repr

/-- Result of a Go function that may return a value, return an error, or stop
with a runtime fault (index out of range). -/
inductive Outcome (α : Type) where
  | ok (a : α)
  | error (e : String)
  | crash
deriving DecidableEq, Repr

/-- Operations `Write` performs on its collaborators, in program order. -/
inductive Event where
  | printToc (images : List Image)
  | printCover (cover : Image)
  | printFiles (images : List Image)
  | create (path : List Char)
  | magic
  | content (name : String)
  | coverTitle (cover : Image)
  | raw
  | pageContent (img : Image)
  | copy (img : Image)
  | blank (img : Image)
deriving DecidableEq, Repr

/-- The collaborators of `epub.go`.

* `load` is the result of `imageProcessor.Load()`;
* `storage` is the result of `NewEPUBZipStorageImageReader`, and on success the
  map `img ↦ imgStorage.Size(img.EPUBImgPath())`;
* `fails` tells, from the operations performed so far and the operation being
  attempted, whether that operation returns an error. -/
structure Env where
  load : Except String (List Image)
  storage : Except String (Image → Nat)
  fails : List Event → Event → Option String

/-! ## Machine arithmetic -/

/-- Reduction to the range of `uint64`. -/
def u64 (n : Nat) : Nat := n % 2 ^ 64

/-- The ceiling in bytes, `maxSize := uint64(e.LimitMb * 1024 * 1024)`. -/
def maxSize (o : Options) : Nat := ((o.LimitMb * 1024 * 1024) % 2 ^ 64).toNat

/-- The per-page overhead, `xhtmlSize := uint64(1024)`. -/
def xhtmlSize : Nat := 1024

/-! ## Sorting by id and part -/

/-- The comparison handed to `sort.Slice`. -/
def less (a b : Image) : Prop :=
  if a.Id = b.Id then a.Part < b.Part else a.Id < b.Id

instance : DecidableRel less := fun a b => by
  unfold less; exact inferInstance

/-- Order of two adjacent elements in a slice sorted with `less`:
`b` does not come strictly before `a`. -/
def notAfter (a b : Image) : Prop := ¬ less b a

instance : DecidableRel notAfter := fun a b => by
  unfold notAfter; exact inferInstance

instance : IsTotal Image notAfter := ⟨fun a b => by
  unfold notAfter less
  split_ifs <;> omega⟩

instance : IsTrans Image notAfter := ⟨fun a b c => by
  unfold notAfter less
  split_ifs <;> omega⟩

/-- Go `sort.Slice(images, less)`. The library promises a permutation sorted for
`less` and leaves the order of elements with equal keys open; the model takes
the insertion sort. -/
def sortSlice (images : List Image) : List Image :=
  List.insertionSort notAfter images

/-! ## getParts -/

/-- The variables of the packing loop of `getParts`. -/
structure LoopState where
  parts : List epubPart
  part : Nat
  currentSize : Nat
  currentImages : List Image
deriving DecidableEq, Repr

/-- The marginal cost of a page,
`imgSize := imgStorage.Size(img.EPUBImgPath()) + xhtmlSize`. -/
def imgSize (size : Image → Nat) (img : Image) : Nat :=
  u64 (u64 (size img) + xhtmlSize)

/-- The value of `baseSize`, after the conditional `baseSize += ...` for `HasCover`. -/
def baseSize (o : Options) (size : Image → Nat) (cover : Image) : Nat :=
  let b := u64 (u64 (16 * 1024) + u64 (size cover))
  if o.Image.HasCover then u64 (b + u64 (size cover)) else b

/-- The value `currentSize` takes when a volume is closed. -/
def restartSize (o : Options) (size : Image → Nat) (cover : Image) : Nat :=
  let c := baseSize o size cover
  if !o.Image.HasCover then u64 (c + u64 (size cover)) else c

/-- One iteration of `for _, img := range images`. -/
def loopStep (o : Options) (size : Image → Nat) (cover : Image)
    (st : LoopState) (img : Image) : LoopState :=
  let st1 : LoopState :=
    if maxSize o > 0 ∧ st.currentImages.length > 0 ∧
        u64 (st.currentSize + imgSize size img) > maxSize o then
      { parts := st.parts ++ [{ Cover := cover, Images := st.currentImages }]
        part := st.part + 1
        currentSize := restartSize o size cover
        currentImages := [] }
    else st
  { st1 with
    currentSize := u64 (st1.currentSize + imgSize size img)
    currentImages := st1.currentImages ++ [img] }

/-- The statement after the loop: a non-empty volume in progress is appended. -/
def finish (cover : Image) (st : LoopState) : List epubPart :=
  if st.currentImages.length > 0 then
    st.parts ++ [{ Cover := cover, Images := st.currentImages }]
  else st.parts

/-- The state before the first iteration. -/
def initState (o : Options) (size : Image → Nat) (cover : Image) : LoopState :=
  { parts := [], part := 1, currentSize := baseSize o size cover, currentImages := [] }

/-- The packing part of `getParts`: the loop and the final append. -/
def pack (o : Options) (size : Image → Nat) (cover : Image) (images : List Image) :
    List epubPart :=
  finish cover (images.foldl (loopStep o size cover) (initState o size cover))

/-- The pages handed to the packing loop: `images[1:]` when `HasCover`. -/
def packed (o : Options) (cover : Image) (rest : List Image) : List Image :=
  if o.Image.HasCover then rest else cover :: rest

/-- The method `ePub.getParts`, returning the volumes (the storage handle it also returns
is `env.storage`). -/
def getParts (o : Options) (env : Env) : Outcome (List epubPart) :=
  match env.load with
  | .error e => .error e
  | .ok loaded =>
    match sortSlice loaded with
    | [] => .crash
    | cover :: rest =>
      let images := packed o cover rest
      if o.Dry then .ok [{ Cover := cover, Images := images }]
      else
        match env.storage with
        | .error e => .error e
        | .ok size => .ok (pack o size cover images)

/-! ## Output paths -/

/-- Go `filepath.Ext`: the suffix beginning at the final dot of the final path
element, empty when that element has no dot. `rev` is the part of the path not
yet scanned, last byte first; `acc` is the part already scanned. -/
def extScan : List Char → List Char → List Char
  | [], _ => []
  | c :: rev, acc =>
    if c = '/' then []
    else if c = '.' then c :: acc
    else extScan rev (c :: acc)

/-- Go `filepath.Ext(path)`. -/
def Ext (path : List Char) : List Char := extScan path.reverse []

/-- Go `fmt.Sprint(n)` for a non-negative integer: its decimal digits. -/
def Sprint (n : Nat) : List Char := Nat.toDigits 10 n

/-- Go `fmt.Sprintf("%0wd", n)` for a non-negative integer: the decimal digits,
padded on the left with zeros up to width `w`. -/
def padZero (w n : Nat) : List Char :=
  List.replicate (w - (Sprint n).length) '0' ++ Sprint n

/-- The suffix of the path of volume `i` (0-based) of `totalParts`. -/
def partSuffix (totalParts i : Nat) : List Char :=
  if totalParts > 1 then
    let fmtLen := (Sprint totalParts).length
    [' ', 'P', 'a', 'r', 't', ' '] ++ padZero fmtLen (i + 1) ++
      [' ', 'o', 'f', ' '] ++ padZero fmtLen totalParts
  else []

/-- The path `Write` hands to `epubzip.New` for volume `i` (0-based). -/
def volumePath (output : List Char) (totalParts i : Nat) : List Char :=
  let ext := Ext output
  output.take (output.length - ext.length) ++ partSuffix totalParts i ++ ext

/-! ## Write -/

/-- The operations attempted so far, and how the sequence ended. -/
abbrev Run := List Event × Outcome Unit

/-- Attempt one operation on a collaborator. -/
def emit (env : Env) (ev : Event) (tr : List Event) : Run :=
  (tr ++ [ev],
    match env.fails tr ev with
    | none => .ok ()
    | some e => .error e)

/-- Sequencing with `if err != nil { return err }`. -/
def andThen (r : Run) (k : List Event → Run) : Run :=
  match r with
  | (tr, .ok _) => k tr
  | (tr, .error e) => (tr, .error e)
  | (tr, .crash) => (tr, .crash)

/-- The method `ePub.writeImage`: the page markup, then the copy of the stored image. -/
def writeImage (env : Env) (img : Image) (tr : List Event) : Run :=
  andThen (emit env (.pageContent img) tr) (emit env (.copy img))

/-- The method `ePub.writeBlank`. -/
def writeBlank (env : Env) (img : Image) (tr : List Event) : Run :=
  emit env (.blank img) tr

/-- The condition guarding `writeBlank` in `Write`:
`img.DoublePage || (img.Part == 0 && img == lastImage)`. -/
def needsBlank (lastImage img : Image) : Bool :=
  img.DoublePage || (img.Part == 0 && img.addr == lastImage.addr)

/-- The loop `for _, img := range part.Images` of `Write`. -/
def writePages (env : Env) (lastImage : Image) : List Image → List Event → Run
  | [], tr => (tr, .ok ())
  | img :: rest, tr =>
    andThen (writeImage env img tr) fun tr1 =>
    andThen (if needsBlank lastImage img then writeBlank env img tr1 else (tr1, .ok ()))
      fun tr2 => writePages env lastImage rest tr2

/-- Names of the fixed entries `Write` puts in every volume. -/
def contentNames : List String :=
  ["META-INF/container.xml",
   "META-INF/com.apple.ibooks.display-options.xml",
   "OEBPS/content.opf",
   "OEBPS/toc.xhtml",
   "OEBPS/Text/style.css",
   "OEBPS/Text/space_title.xhtml",
   "OEBPS/Text/title.xhtml"]

/-- The loop `for _, c := range content` of `Write`. -/
def writeContents (env : Env) : List String → List Event → Run
  | [], tr => (tr, .ok ())
  | name :: rest, tr => andThen (emit env (.content name) tr) (writeContents env rest)

/-- The body of the loop `for i, part := range epubParts` of `Write`. -/
def writePart (o : Options) (env : Env) (totalParts i : Nat) (part : epubPart)
    (tr : List Event) : Run :=
  andThen (emit env (.create (volumePath o.Output totalParts i)) tr) fun tr1 =>
  andThen (emit env .magic tr1) fun tr2 =>
  andThen (writeContents env contentNames tr2) fun tr3 =>
  andThen (emit env (.coverTitle part.Cover) tr3) fun tr4 =>
  andThen (emit env .raw tr4) fun tr5 =>
  andThen (if o.Image.HasCover || decide (i > 0) then writeImage env part.Cover tr5
           else (tr5, .ok ())) fun tr6 =>
  match part.Images.getLast? with
  | none => (tr6, .crash)
  | some lastImage => writePages env lastImage part.Images tr6

/-- The loop `for i, part := range epubParts` of `Write`, from index `i`. -/
def writeParts (o : Options) (env : Env) (totalParts : Nat) :
    Nat → List epubPart → List Event → Run
  | _, [], tr => (tr, .ok ())
  | i, part :: rest, tr =>
    andThen (writePart o env totalParts i part tr) (writeParts o env totalParts (i + 1) rest)

/-- The dry branch of `Write`: what it prints for the first volume. -/
def dryEvents (o : Options) (p : epubPart) : List Event :=
  [.printToc p.Images] ++
    (if o.DryVerbose then
      (if o.Image.HasCover then [.printCover p.Cover] else []) ++ [.printFiles p.Images]
     else [])

/-- The method `ePub.Write`: the operations it attempts and its result (`ok` is a `nil`
error). -/
def Write (o : Options) (env : Env) : Run :=
  match getParts o env with
  | .error e => ([], .error e)
  | .crash => ([], .crash)
  | .ok epubParts =>
    if o.Dry then
      match epubParts with
      | [] => ([], .crash)
      | p :: _ => (dryEvents o p, .ok ())
    else writeParts o env epubParts.length 0 epubParts []


/-! ## Accounting of volume sizes -/

/-- Sum, over the pages of a list, of the marginal cost of a page: its stored
bytes plus the per-page overhead `xhtmlSize`. -/
def totalBytes (size : Image → Nat) (l : List Image) : Nat :=
  (l.map fun p => u64 (size p) + xhtmlSize).sum

/-- Cover bytes in the running size of volume `k` (0-based): `baseSize` counts
the cover once, twice when `HasCover`; after a volume is closed the running
size restarts with the cover counted twice. -/
def coverBytes (o : Options) (size : Image → Nat) (cover : Image) (k : Nat) : Nat :=
  if k = 0 ∧ o.Image.HasCover = false then u64 (size cover) else 2 * u64 (size cover)

/-- Accounted cost of volume `k` (0-based): descriptor overhead, cover bytes,
and the marginal cost of each of its pages. -/
def partCost (o : Options) (size : Image → Nat) (cover : Image) (k : Nat)
    (v : epubPart) : Nat :=
  16 * 1024 + coverBytes o size cover k + totalBytes size v.Images

/-- No `uint64` sum of `getParts` wraps: the largest running size it can form,
with every page in one volume and the cover counted twice, is below `2^64`. -/
def noWrap (size : Image → Nat) (cover : Image) (images : List Image) : Prop :=
  16 * 1024 + 2 * u64 (size cover) + totalBytes size images < 2 ^ 64

/-- Loop invariant of the packing loop, with `l` the pages still to come: the
running size is the accounted cost of the volume in progress, and no sum on
the way can wrap. -/
def Inv (o : Options) (size : Image → Nat) (cover : Image) (st : LoopState)
    (l : List Image) : Prop :=
  st.currentSize =
      16 * 1024 + coverBytes o size cover st.parts.length +
        totalBytes size st.currentImages ∧
    16 * 1024 + 2 * u64 (size cover) + totalBytes size st.currentImages +
      totalBytes size l < 2 ^ 64

instance (size : Image → Nat) (cover : Image) (images : List Image) :
    Decidable (noWrap size cover images) := by
  unfold noWrap; exact inferInstance

/-! ## Sample inputs -/

/-- An unsplit page, not a double page, with id and address `i`. -/
def samplePage (i : Nat) : Image :=
  { addr := i, Id := i, Part := 0, DoublePage := false }

/-- Non-dry options with output `out.epub`. -/
def sampleOptions (limitMb : Int) (hasCover : Bool) : Options :=
  { Output := ['o', 'u', 't', '.', 'e', 'p', 'u', 'b']
    LimitMb := limitMb
    Dry := false
    DryVerbose := false
    Image := { HasCover := hasCover } }

/-- Collaborators that never fail: the loaded pages and their stored sizes. -/
def sampleEnv (images : List Image) (size : Image → Nat) : Env :=
  { load := .ok images, storage := .ok size, fails := fun _ _ => none }

/-- Stored sizes given per page id, 0 for an id out of range. -/
def sizeById (sizes : List Nat) (img : Image) : Nat :=
  sizes.getD img.Id.toNat 0

/-! ## Reading a decimal string -/

/-- The number a string of decimal digits stands for (leading zeros allowed). -/
def digitsValue (s : List Char) : Nat :=
  s.foldl (fun acc c => 10 * acc + (c.toNat - 48)) 0

/-! ## Closing a volume -/

/-- Every two consecutive volumes `V`, `W` of a list: `W` starts with a page
whose marginal cost, added to the accounted cost of `V`, exceeds the ceiling. -/
def ClosedWhenFull (o : Options) (size : Image → Nat) (cover : Image)
    (parts : List epubPart) : Prop :=
  ∀ k V W, parts[k]? = some V → parts[k + 1]? = some W →
    ∃ q tl, W.Images = q :: tl ∧
      maxSize o < partCost o size cover k V + (u64 (size q) + xhtmlSize)

/-- The volume in progress, seen from the last closed volume `V`: it starts
with a page whose marginal cost, added to the accounted cost of `V`, exceeds
the ceiling. -/
def OpenedWhenFull (o : Options) (size : Image → Nat) (cover : Image)
    (parts : List epubPart) (current : List Image) : Prop :=
  ∀ V, parts.getLast? = some V →
    ∃ q tl, current = q :: tl ∧
      maxSize o < partCost o size cover (parts.length - 1) V + (u64 (size q) + xhtmlSize)

end epub

/-! # Image filters

A shallow embedding of `internal/epub/image/epub_image_filters.go`. A filter
chain `*gift.GIFT` is the list of its filters, in the order they were added,
together with its parallelization setting. A filter is recorded by its
constructor and the arguments the source passes to it; the conversion
`float32(options.Contrast)` is recorded by the integer it converts. -/

namespace epubimage

/-- Go `image.Image`, as far as the filter builders read it: the width `Dx` and
the height `Dy` of its bounds. -/
structure SourceImage where
  Dx : Int
  Dy : Int
deriving DecidableEq, Repr

/-- The fields of `epubimage.Options` read by the filter builders. -/
structure Options where
  Crop : Bool
  CropRatioLeft : Int
  CropRatioUp : Int
  CropRatioRight : Int
  CropRatioBottom : Int
  AutoRotate : Bool
  Contrast : Int
  Brightness : Int
  ViewWidth : Int
  ViewHeight : Int
  Manga : Bool
deriving DecidableEq, Repr

/-- The filters the builders add, each with the arguments it is given. -/
inductive Filter where
  | AutoCrop (img : SourceImage) (left up right bottom : Int)
  | Rotate90
  | Contrast (percentage : Int)
  | Brightness (percentage : Int)
  | Resize (viewWidth viewHeight : Int)
  | Pixel
  | CropSplitDoublePage (right : Bool)
deriving DecidableEq, Repr

/-- Go `gift.GIFT`: the filters in the order they were added, and the
parallelization setting. -/
structure GIFT where
  Filters : List Filter
  Parallelization : Bool
deriving DecidableEq, Repr

/-- Go `gift.New(filters...)`; parallelization is on by default. -/
def GIFT.New (filters : List Filter) : GIFT :=
  { Filters := filters, Parallelization := true }

/-- Go `g.SetParallelization(isEnabled)`. -/
def GIFT.SetParallelization (g : GIFT) (isEnabled : Bool) : GIFT :=
  { g with Parallelization := isEnabled }

/-- Go `g.Add(filters...)`: the filters are appended to the chain. -/
def GIFT.Add (g : GIFT) (filters : List Filter) : GIFT :=
  { g with Filters := g.Filters ++ filters }

/-- The function `NewGift`: the filter chain applied to an unsplit image. -/
def NewGift (img : SourceImage) (options : Options) : GIFT :=
  let g0 := (GIFT.New []).SetParallelization false
  let g1 :=
    if options.Crop then
      g0.Add [Filter.AutoCrop img options.CropRatioLeft options.CropRatioUp
        options.CropRatioRight options.CropRatioBottom]
    else g0
  let g2 :=
    if options.AutoRotate && decide (img.Dx > img.Dy) then g1.Add [Filter.Rotate90]
    else g1
  let g3 := if options.Contrast != 0 then g2.Add [Filter.Contrast options.Contrast] else g2
  let g4 :=
    if options.Brightness != 0 then g3.Add [Filter.Brightness options.Brightness] else g3
  g4.Add [Filter.Resize options.ViewWidth options.ViewHeight, Filter.Pixel]

/-- The body of the loop `for _, g := range gifts` of `NewGiftSplitDoublePage`. -/
def addSplitStages (options : Options) (g : GIFT) : GIFT :=
  let g1 := if options.Contrast != 0 then g.Add [Filter.Contrast options.Contrast] else g
  let g2 :=
    if options.Brightness != 0 then g1.Add [Filter.Brightness options.Brightness] else g1
  g2.Add [Filter.Resize options.ViewWidth options.ViewHeight]

/-- The function `NewGiftSplitDoublePage`: the chains applied to the two halves
of a double page. -/
def NewGiftSplitDoublePage (options : Options) : List GIFT :=
  let gifts :=
    [GIFT.New [Filter.CropSplitDoublePage options.Manga],
     GIFT.New [Filter.CropSplitDoublePage (!options.Manga)]]
  gifts.map (addSplitStages options)

/-- The six stages of the unsplit pipeline, in their fixed order. -/
def allStages (img : SourceImage) (options : Options) : List Filter :=
  [Filter.AutoCrop img options.CropRatioLeft options.CropRatioUp
      options.CropRatioRight options.CropRatioBottom,
   Filter.Rotate90,
   Filter.Contrast options.Contrast,
   Filter.Brightness options.Brightness,
   Filter.Resize options.ViewWidth options.ViewHeight,
   Filter.Pixel]

/-- Whether a stage is a contrast, brightness or resize stage. -/
def isToneOrResize : Filter → Bool
  | Filter.Contrast _ => true
  | Filter.Brightness _ => true
  | Filter.Resize _ _ => true
  | _ => false

end epubimage

namespace epub

end epub

/-! # Validation of the options

A shallow embedding of `Converter.Validate` of `internal/converter/core.go`.
Go strings are lists of characters. The file system and the path functions of
the Go library other than `filepath.Ext` are parameters, gathered in
`FileSystem`. -/

namespace converter

/-- The fields of the converter `Options` read or written by `Validate`;
`profiles` tells whether the map of profiles has a key. -/
structure Options where
  Input : List Char
  Output : List Char
  Title : List Char
  Profile : List Char
  profiles : List Char → Bool
  LimitMb : Int
  Brightness : Int
  Contrast : Int

/-- The file system and the Go path library, as `Validate` uses them: `Stat`
returns an error or tells whether the path is a directory. -/
structure FileSystem where
  Stat : List Char → Except String Bool
  Clean : List Char → List Char
  Dir : List Char → List Char
  Base : List Char → List Char
  Join : List Char → List Char → List Char

/-- The errors `Validate` returns, one per `return` statement. -/
inductive ValidateError where
  | missingInput
  | stat (e : String)
  | parentNotDir
  | outputNotDir
  | profileMissing
  | profileUnknown (profile : List Char)
  | limitMb
  | brightness
  | contrast
deriving DecidableEq, Repr

/-- The extension `.epub`. -/
def epubExt : List Char := ['.', 'e', 'p', 'u', 'b']

/-- The output check of `Validate`, on the cleaned output path. -/
def checkOutput (fs : FileSystem) (defaultOutput : List Char) (o : Options) :
    Except ValidateError Options :=
  if epub.Ext o.Output = epubExt then
    match fs.Stat (fs.Dir o.Output) with
    | .error e => .error (.stat e)
    | .ok isDir => if !isDir then .error .parentNotDir else .ok o
  else
    match fs.Stat o.Output with
    | .error e => .error (.stat e)
    | .ok isDir =>
      if !isDir then .error .outputNotDir
      else .ok { o with Output := fs.Join o.Output (fs.Base defaultOutput) }

/-- The title and profile checks of `Validate`. -/
def checkTitleProfile (fs : FileSystem) (defaultOutput : List Char) (o : Options) :
    Except ValidateError Options :=
  let o1 :=
    if o.Title = [] then
      { o with
        Title := fs.Base (defaultOutput.take
          (defaultOutput.length - (epub.Ext defaultOutput).length)) }
    else o
  if o1.Profile = [] then .error .profileMissing
  else if !o1.profiles o1.Profile then .error (.profileUnknown o1.Profile)
  else .ok o1

/-- The input, output, title and profile checks of `Validate` (its statements
up to the comment `LimitMb`), with the options they leave. -/
def validatePaths (fs : FileSystem) (o : Options) : Except ValidateError Options :=
  if o.Input = [] then .error .missingInput
  else
    match fs.Stat o.Input with
    | .error e => .error (.stat e)
    | .ok isDir =>
      let inputBase := fs.Clean o.Input
      let defaultOutput :=
        if isDir then inputBase ++ epubExt
        else inputBase.take (inputBase.length - (epub.Ext inputBase).length) ++ epubExt
      let o1 := if o.Output = [] then { o with Output := defaultOutput } else o
      let o2 := { o1 with Output := fs.Clean o1.Output }
      match checkOutput fs defaultOutput o2 with
      | .error e => .error e
      | .ok o3 => checkTitleProfile fs defaultOutput o3

/-- The checks of `LimitMb`, `Brightness` and `Contrast` that end `Validate`. -/
def validateLimits (o : Options) : Except ValidateError Options :=
  if o.LimitMb < 20 ∧ o.LimitMb ≠ 0 then .error .limitMb
  else if o.Brightness < -100 ∨ o.Brightness > 100 then .error .brightness
  else if o.Contrast < -100 ∨ o.Contrast > 100 then .error .contrast
  else .ok o

/-- The method `Converter.Validate`: the error it returns, or the options it
leaves when it returns `nil`. -/
def Validate (fs : FileSystem) (o : Options) : Except ValidateError Options :=
  match validatePaths fs o with
  | .error e => .error e
  | .ok o1 => validateLimits o1

/-- A file system in which every path is an existing directory, with path
functions that leave their argument as it is. -/
def sampleFileSystem : FileSystem :=
  { Stat := fun _ => .ok true
    Clean := fun p => p
    Dir := fun p => p
    Base := fun p => p
    Join := fun p q => p ++ ['/'] ++ q }

/-- Options with input `in`, an empty output and title, and the one known
profile `SR`. -/
def sampleOptions (limitMb brightness contrast : Int) : Options :=
  { Input := ['i', 'n']
    Output := []
    Title := []
    Profile := ['S', 'R']
    profiles := fun p => decide (p = ['S', 'R'])
    LimitMb := limitMb
    Brightness := brightness
    Contrast := contrast }

end converter

namespace epub

end epub

/-! # Display of the settings

A shallow embedding of `Options.ShowConfig` and `Options.GetProfile` of
`internal/converter/options/converter_options.go`. Here Go strings are strings.
The map of profiles is a partial function, `profiles.Get` being its
application, with `none` for the `nil` pointer. Floating point is a parameter:
`float64` is a type `F` with the operations `ShowConfig` applies to it. -/

namespace options

/-- Go `profiles.Profile`, as far as `ShowConfig` reads it. -/
structure Profile where
  Description : String
  Width : Int
  Height : Int
deriving DecidableEq, Repr

/-- The operations `ShowConfig` applies to `float64` values. -/
structure Float64Ops (F : Type) where
  /-- The conversion `float64(n)`. -/
  ofInt : Int → F
  /-- The quotient `x / y`. -/
  div : F → F → F
  /-- The comparison `x > 0`. -/
  gtZero : F → Bool
  /-- The comparison `x < 0`. -/
  ltZero : F → Bool
  /-- The text of `fmt.Sprintf("%.02f", x)`, which is also that of `%0.2f`. -/
  format2 : F → String

/-- The fields of `Options` read by `ShowConfig`. -/
structure Options (F : Type) where
  Profile : String
  Quality : Int
  Grayscale : Bool
  GrayscaleMode : Int
  Crop : Bool
  CropRatioLeft : Int
  CropRatioUp : Int
  CropRatioRight : Int
  CropRatioBottom : Int
  CropLimit : Int
  Brightness : Int
  Contrast : Int
  AutoContrast : Bool
  AutoRotate : Bool
  AutoSplitDoublePage : Bool
  KeepDoublePageIfSplit : Bool
  NoBlankImage : Bool
  Manga : Bool
  HasCover : Bool
  LimitMb : Int
  StripFirstDirectoryFromToc : Bool
  SortPathMode : Int
  ForegroundColor : String
  BackgroundColor : String
  NoResize : Bool
  Format : String
  AspectRatio : F
  PortraitOnly : Bool
  AppleBookCompatibility : Bool
  TitlePage : Int
  profiles : String → Option options.Profile

/-- The method `Options.GetProfile`: `o.profiles.Get(o.Profile)`. -/
def Options.GetProfile {F : Type} (o : Options F) : Option options.Profile :=
  o.profiles o.Profile

/-- A value of type `any` in the table of `ShowConfig`. -/
inductive Value where
  | str (s : String)
  | int (n : Int)
  | bool (b : Bool)
deriving DecidableEq, Repr

/-- The text of a value under the verb `%v`. -/
def Value.format : Value → String
  | .str s => s
  | .int n => toString n
  | .bool b => if b then "true" else "false"

/-- A line of the table of `ShowConfig`. -/
structure Row where
  Key : String
  Value : Value
  Condition : Bool

/-- The text of `fmt.Sprintf("\n    %-32s: %v", key, value)`: the key is padded
with spaces on the right up to 32 characters. -/
def formatRow (key : String) (value : Value) : String :=
  "\n    " ++ key ++ String.mk (List.replicate (32 - key.length) ' ') ++ ": " ++
    value.format

/-- The description of the profile, empty when there is no profile. -/
def profileDesc {F : Type} (o : Options F) : String :=
  match o.GetProfile with
  | some profile =>
    o.Profile ++ " - " ++ profile.Description ++ " - " ++ toString profile.Width ++ "x" ++
      toString profile.Height
  | none => ""

/-- The text for `SortPathMode`. -/
def sortpathmode {F : Type} (o : Options F) : String :=
  if o.SortPathMode = 0 then "path=alpha, file=alpha"
  else if o.SortPathMode = 1 then "path=alphanumeric, file=alpha"
  else if o.SortPathMode = 2 then "path=alphanumeric, file=alphanumeric"
  else ""

/-- The text for `AspectRatio`. In the branch `o.AspectRatio < 0` the source
reads `profile.Height` and `profile.Width` without testing `profile`: with a
`nil` profile this is a runtime fault. -/
def aspectRatio {F : Type} (ops : Float64Ops F) (o : Options F) : epub.Outcome String :=
  if ops.gtZero o.AspectRatio then .ok ("1:" ++ ops.format2 o.AspectRatio)
  else if ops.ltZero o.AspectRatio then
    match o.GetProfile with
    | none => .crash
    | some profile =>
      .ok ("1:" ++ ops.format2 (ops.div (ops.ofInt profile.Height) (ops.ofInt profile.Width))
        ++ " (device)")
  else .ok "auto"

/-- The text for `TitlePage`. -/
def titlePage {F : Type} (o : Options F) : String :=
  if o.TitlePage = 0 then "never"
  else if o.TitlePage = 1 then "always"
  else if o.TitlePage = 2 then "when epub is split"
  else ""

/-- The text for `GrayscaleMode`. -/
def grayscaleMode {F : Type} (o : Options F) : String :=
  if o.GrayscaleMode = 1 then "average"
  else if o.GrayscaleMode = 2 then "luminance"
  else "normal"

/-- The table of `ShowConfig`, given the text for the aspect ratio. -/
def rows {F : Type} (o : Options F) (aspect : String) : List Row :=
  [ { Key := "Profile", Value := .str (profileDesc o), Condition := true },
    { Key := "Format", Value := .str o.Format, Condition := true },
    { Key := "Quality", Value := .int o.Quality, Condition := o.Format == "jpeg" },
    { Key := "Grayscale", Value := .bool o.Grayscale, Condition := true },
    { Key := "Grayscale mode", Value := .str (grayscaleMode o), Condition := o.Grayscale },
    { Key := "Crop", Value := .bool o.Crop, Condition := true },
    { Key := "Crop ratio",
      Value := .str (toString o.CropRatioLeft ++ " Left - " ++ toString o.CropRatioUp ++
        " Up - " ++ toString o.CropRatioRight ++ " Right - " ++
        toString o.CropRatioBottom ++ " Bottom - " ++ toString o.CropLimit ++ " Limit"),
      Condition := o.Crop },
    { Key := "Brightness", Value := .int o.Brightness, Condition := o.Brightness != 0 },
    { Key := "Contrast", Value := .int o.Contrast, Condition := o.Contrast != 0 },
    { Key := "Auto contrast", Value := .bool o.AutoContrast, Condition := true },
    { Key := "Auto rotate", Value := .bool o.AutoRotate, Condition := true },
    { Key := "Auto split double page", Value := .bool o.AutoSplitDoublePage,
      Condition := o.PortraitOnly || !o.AppleBookCompatibility },
    { Key := "Keep double page if split", Value := .bool o.KeepDoublePageIfSplit,
      Condition := (o.PortraitOnly || !o.AppleBookCompatibility) && o.AutoSplitDoublePage },
    { Key := "No blank image", Value := .bool o.NoBlankImage, Condition := true },
    { Key := "Manga", Value := .bool o.Manga, Condition := true },
    { Key := "Has cover", Value := .bool o.HasCover, Condition := true },
    { Key := "Limit", Value := .str (toString o.LimitMb ++ " Mb"),
      Condition := o.LimitMb != 0 },
    { Key := "Strip first directory from toc",
      Value := .bool o.StripFirstDirectoryFromToc, Condition := true },
    { Key := "Sort path mode", Value := .str (sortpathmode o), Condition := true },
    { Key := "Foreground color", Value := .str ("#" ++ o.ForegroundColor),
      Condition := true },
    { Key := "Background color", Value := .str ("#" ++ o.BackgroundColor),
      Condition := true },
    { Key := "Resize", Value := .bool (!o.NoResize), Condition := true },
    { Key := "Aspect ratio", Value := .str aspect, Condition := true },
    { Key := "Portrait only", Value := .bool o.PortraitOnly, Condition := true },
    { Key := "Title page", Value := .str (titlePage o), Condition := true },
    { Key := "Apple book compatibility", Value := .bool o.AppleBookCompatibility,
      Condition := !o.PortraitOnly } ]

/-- The loop of `ShowConfig` over its table: the lines whose condition holds. -/
def writeRows : List Row → String
  | [] => ""
  | v :: rest => (if v.Condition then formatRow v.Key v.Value else "") ++ writeRows rest

/-- The method `Options.ShowConfig`: the text it returns, or the runtime fault
of a `nil` profile read. -/
def ShowConfig {F : Type} (ops : Float64Ops F) (o : Options F) : epub.Outcome String :=
  match aspectRatio ops o with
  | .ok aspect => .ok (writeRows (rows o aspect))
  | .error e => .error e
  | .crash => .crash

/-- Integers standing for `float64` values, enough to follow the branches of
`ShowConfig`. -/
def sampleFloat : Float64Ops Int :=
  { ofInt := fun n => n
    div := fun x y => x / y
    gtZero := fun x => decide (x > 0)
    ltZero := fun x => decide (x < 0)
    format2 := fun x => toString x }

/-- The default options of `New`, with a given profile name and aspect ratio,
and `SR` as the only known profile. -/
def sampleOptions (profile : String) (aspect : Int) : Options Int :=
  { Profile := profile
    Quality := 85
    Grayscale := true
    GrayscaleMode := 0
    Crop := true
    CropRatioLeft := 1
    CropRatioUp := 1
    CropRatioRight := 1
    CropRatioBottom := 3
    CropLimit := 0
    Brightness := 0
    Contrast := 0
    AutoContrast := false
    AutoRotate := false
    AutoSplitDoublePage := false
    KeepDoublePageIfSplit := true
    NoBlankImage := true
    Manga := false
    HasCover := true
    LimitMb := 0
    StripFirstDirectoryFromToc := false
    SortPathMode := 1
    ForegroundColor := "000"
    BackgroundColor := "FFF"
    NoResize := false
    Format := "jpeg"
    AspectRatio := aspect
    PortraitOnly := false
    AppleBookCompatibility := false
    TitlePage := 1
    profiles := fun name =>
      if name = "SR" then
        some { Description := "Standard Resolution", Width := 1200, Height := 1920 }
      else none }

end options

namespace epub

/-! ## Lemmas: sorting -/

theorem notAfter_iff (a b : Image) :
    notAfter a b ↔ (a.Id < b.Id ∨ (a.Id = b.Id ∧ a.Part ≤ b.Part)) := by
  unfold notAfter less
  split_ifs <;> omega

theorem sortSlice_sorted (l : List Image) :
    List.Sorted (fun a b => a.Id < b.Id ∨ (a.Id = b.Id ∧ a.Part ≤ b.Part)) (sortSlice l) := by
  have h := List.sorted_insertionSort notAfter l
  exact List.Pairwise.imp (fun {a b} hab => (notAfter_iff a b).1 hab) h

theorem sortSlice_perm (l : List Image) : (sortSlice l).Perm l :=
  List.perm_insertionSort notAfter l

theorem sortSlice_ne_nil {l : List Image} (h : l ≠ []) : sortSlice l ≠ [] := by
  intro hs
  have := (sortSlice_perm l).length_eq
  rw [hs] at this
  exact h (List.length_eq_zero.1 this.symm)

/-! ## Lemmas: the packing loop -/

/-- The two branches of one iteration. -/
theorem loopStep_close (o : Options) (size : Image → Nat) (cover : Image)
    (st : LoopState) (img : Image)
    (h : maxSize o > 0 ∧ st.currentImages.length > 0 ∧
        u64 (st.currentSize + imgSize size img) > maxSize o) :
    loopStep o size cover st img =
      { parts := st.parts ++ [{ Cover := cover, Images := st.currentImages }]
        part := st.part + 1
        currentSize := u64 (restartSize o size cover + imgSize size img)
        currentImages := [img] } := by
  simp [loopStep, h]

theorem loopStep_keep (o : Options) (size : Image → Nat) (cover : Image)
    (st : LoopState) (img : Image)
    (h : ¬ (maxSize o > 0 ∧ st.currentImages.length > 0 ∧
        u64 (st.currentSize + imgSize size img) > maxSize o)) :
    loopStep o size cover st img =
      { parts := st.parts
        part := st.part
        currentSize := u64 (st.currentSize + imgSize size img)
        currentImages := st.currentImages ++ [img] } := by
  simp only [loopStep, if_neg h]

/-- The volumes already closed are kept, and the volumes added hold, in order,
the pages of the volume in progress followed by the pages still to come. -/
theorem finish_foldl (o : Options) (size : Image → Nat) (cover : Image) :
    ∀ (l : List Image) (st : LoopState),
      ∃ added : List epubPart,
        finish cover (l.foldl (loopStep o size cover) st) = st.parts ++ added ∧
        added.flatMap epubPart.Images = st.currentImages ++ l ∧
        (∀ v ∈ added, v.Cover = cover ∧ v.Images ≠ []) := by
  intro l
  induction l with
  | nil =>
    intro st
    by_cases h : st.currentImages.length > 0
    · refine ⟨[{ Cover := cover, Images := st.currentImages }], ?_, ?_, ?_⟩
      · simp [finish, h]
      · simp
      · intro v hv
        simp only [List.mem_singleton] at hv
        subst hv
        exact ⟨rfl, fun h0 => by
          have h0' : st.currentImages = [] := h0
          simp [h0'] at h⟩
    · refine ⟨[], ?_, ?_, ?_⟩
      · simp [finish, h]
      · have : st.currentImages = [] := by
          cases hc : st.currentImages with
          | nil => rfl
          | cons a t => simp [hc] at h
        simp [this]
      · intro v hv; cases hv
  | cons a l ih =>
    intro st
    rw [List.foldl_cons]
    by_cases h : maxSize o > 0 ∧ st.currentImages.length > 0 ∧
        u64 (st.currentSize + imgSize size a) > maxSize o
    · rw [loopStep_close o size cover st a h]
      obtain ⟨added, h1, h2, h3⟩ := ih
        { parts := st.parts ++ [{ Cover := cover, Images := st.currentImages }]
          part := st.part + 1
          currentSize := u64 (restartSize o size cover + imgSize size a)
          currentImages := [a] }
      refine ⟨{ Cover := cover, Images := st.currentImages } :: added, ?_, ?_, ?_⟩
      · rw [h1]; simp
      · simp only [List.flatMap_cons, h2]; simp
      · intro v hv
        rcases List.mem_cons.1 hv with hv | hv
        · subst hv
          exact ⟨rfl, fun h0 => by
            have h0' : st.currentImages = [] := h0
            simp [h0'] at h⟩
        · exact h3 v hv
    · rw [loopStep_keep o size cover st a h]
      obtain ⟨added, h1, h2, h3⟩ := ih
        { parts := st.parts
          part := st.part
          currentSize := u64 (st.currentSize + imgSize size a)
          currentImages := st.currentImages ++ [a] }
      refine ⟨added, h1, ?_, h3⟩
      rw [h2]; simp

theorem pack_flatMap (o : Options) (size : Image → Nat) (cover : Image) (l : List Image) :
    (pack o size cover l).flatMap epubPart.Images = l := by
  obtain ⟨added, h1, h2, _⟩ := finish_foldl o size cover l (initState o size cover)
  unfold pack
  rw [h1]
  simpa [initState] using h2

/-- With ceiling 0 no volume is ever closed. -/
theorem foldl_unlimited (o : Options) (size : Image → Nat) (cover : Image)
    (h0 : maxSize o = 0) :
    ∀ (l : List Image) (st : LoopState),
      (l.foldl (loopStep o size cover) st).parts = st.parts ∧
      (l.foldl (loopStep o size cover) st).currentImages = st.currentImages ++ l := by
  intro l
  induction l with
  | nil => intro st; simp
  | cons a l ih =>
    intro st
    rw [List.foldl_cons]
    have hk : ¬ (maxSize o > 0 ∧ st.currentImages.length > 0 ∧
        u64 (st.currentSize + imgSize size a) > maxSize o) := by
      rw [h0]; simp
    rw [loopStep_keep o size cover st a hk]
    obtain ⟨h1, h2⟩ := ih
      { parts := st.parts
        part := st.part
        currentSize := u64 (st.currentSize + imgSize size a)
        currentImages := st.currentImages ++ [a] }
    exact ⟨h1, by rw [h2]; simp⟩

theorem pack_unlimited (o : Options) (size : Image → Nat) (cover : Image)
    (h0 : maxSize o = 0) (l : List Image) (hl : l ≠ []) :
    pack o size cover l = [{ Cover := cover, Images := l }] := by
  obtain ⟨h1, h2⟩ := foldl_unlimited o size cover h0 l (initState o size cover)
  have hpos : (l.foldl (loopStep o size cover) (initState o size cover)).currentImages.length > 0 := by
    rw [h2]
    simp [initState]
    exact List.length_pos.2 hl
  unfold pack finish
  rw [if_pos hpos, h1, h2]
  simp [initState]

/-! ## Lemmas: exact arithmetic below the wrap -/

theorem u64_eq {n : Nat} (h : n < 2 ^ 64) : u64 n = n := Nat.mod_eq_of_lt h

theorem u64_lt (n : Nat) : u64 n < 2 ^ 64 := Nat.mod_lt _ (by norm_num)

theorem totalBytes_nil (size : Image → Nat) : totalBytes size [] = 0 := rfl

theorem totalBytes_cons (size : Image → Nat) (a : Image) (l : List Image) :
    totalBytes size (a :: l) = u64 (size a) + xhtmlSize + totalBytes size l := by
  simp [totalBytes]

theorem totalBytes_append (size : Image → Nat) (l1 l2 : List Image) :
    totalBytes size (l1 ++ l2) = totalBytes size l1 + totalBytes size l2 := by
  simp [totalBytes]

theorem coverBytes_le (o : Options) (size : Image → Nat) (cover : Image) (k : Nat) :
    coverBytes o size cover k ≤ 2 * u64 (size cover) := by
  unfold coverBytes; split_ifs <;> omega

theorem coverBytes_succ (o : Options) (size : Image → Nat) (cover : Image) (k : Nat) :
    coverBytes o size cover (k + 1) = 2 * u64 (size cover) := by
  simp [coverBytes]

theorem imgSize_eq (size : Image → Nat) (a : Image)
    (h : u64 (size a) + xhtmlSize < 2 ^ 64) :
    imgSize size a = u64 (size a) + xhtmlSize := by
  unfold imgSize; exact u64_eq h

theorem baseSize_eq (o : Options) (size : Image → Nat) (cover : Image)
    (h : 16 * 1024 + 2 * u64 (size cover) < 2 ^ 64) :
    baseSize o size cover = 16 * 1024 + coverBytes o size cover 0 := by
  have h16 : u64 (16 * 1024) = 16 * 1024 := u64_eq (by norm_num)
  have hc : u64 (u64 (size cover)) = u64 (size cover) := u64_eq (u64_lt _)
  have hb : u64 (16 * 1024 + u64 (size cover)) = 16 * 1024 + u64 (size cover) :=
    u64_eq (by omega)
  unfold baseSize coverBytes
  cases hcov : o.Image.HasCover
  · simp [h16, hc, hb]
  · simp only [h16, hc, hb, if_true]
    rw [u64_eq (by omega)]
    simp
    omega

theorem restartSize_eq (o : Options) (size : Image → Nat) (cover : Image)
    (h : 16 * 1024 + 2 * u64 (size cover) < 2 ^ 64) :
    restartSize o size cover = 16 * 1024 + 2 * u64 (size cover) := by
  have hc : u64 (u64 (size cover)) = u64 (size cover) := u64_eq (u64_lt _)
  unfold restartSize
  rw [baseSize_eq o size cover h]
  unfold coverBytes
  cases hcov : o.Image.HasCover
  · simp only [hc, Bool.not_false, if_true, and_self]
    rw [u64_eq (by omega)]
    omega
  · simp

theorem Inv_init (o : Options) (size : Image → Nat) (cover : Image) (l : List Image)
    (h : noWrap size cover l) : Inv o size cover (initState o size cover) l := by
  unfold noWrap at h
  refine ⟨?_, ?_⟩
  · simp only [initState, List.length_nil, totalBytes_nil, Nat.add_zero]
    exact baseSize_eq o size cover (by omega)
  · simpa [initState, totalBytes_nil] using h

/-- Under the invariant, one iteration in exact arithmetic. -/
theorem loopStep_exact (o : Options) (size : Image → Nat) (cover : Image)
    (st : LoopState) (a : Image) (l : List Image) (h : Inv o size cover st (a :: l)) :
    loopStep o size cover st a =
      if 0 < maxSize o ∧ 0 < st.currentImages.length ∧
          maxSize o < st.currentSize + (u64 (size a) + xhtmlSize) then
        { parts := st.parts ++ [{ Cover := cover, Images := st.currentImages }]
          part := st.part + 1
          currentSize := 16 * 1024 + 2 * u64 (size cover) + (u64 (size a) + xhtmlSize)
          currentImages := [a] }
      else
        { parts := st.parts
          part := st.part
          currentSize := st.currentSize + (u64 (size a) + xhtmlSize)
          currentImages := st.currentImages ++ [a] } := by
  obtain ⟨hcs, hb⟩ := h
  rw [totalBytes_cons] at hb
  have hcb := coverBytes_le o size cover st.parts.length
  have hi : imgSize size a = u64 (size a) + xhtmlSize := imgSize_eq size a (by omega)
  have hsum : u64 (st.currentSize + imgSize size a) =
      st.currentSize + (u64 (size a) + xhtmlSize) := by
    rw [hi]; exact u64_eq (by omega)
  have hr := restartSize_eq o size cover (by omega)
  by_cases hc : maxSize o > 0 ∧ st.currentImages.length > 0 ∧
        u64 (st.currentSize + imgSize size a) > maxSize o
  · rw [loopStep_close o size cover st a hc]
    rw [hsum] at hc
    rw [if_pos hc, hr, hi, u64_eq (by omega)]
  · rw [loopStep_keep o size cover st a hc]
    rw [hsum] at hc ⊢
    rw [if_neg hc]

/-- The invariant is kept by one iteration. -/
theorem Inv_step (o : Options) (size : Image → Nat) (cover : Image)
    (st : LoopState) (a : Image) (l : List Image) (h : Inv o size cover st (a :: l)) :
    Inv o size cover (loopStep o size cover st a) l := by
  rw [loopStep_exact o size cover st a l h]
  obtain ⟨hcs, hb⟩ := h
  rw [totalBytes_cons] at hb
  split_ifs with hc
  · refine ⟨?_, ?_⟩
    · simp only [List.length_append, List.length_singleton, coverBytes_succ,
        totalBytes_cons, totalBytes_nil]
      omega
    · simp only [totalBytes_cons, totalBytes_nil]
      omega
  · refine ⟨?_, ?_⟩
    · simp only [totalBytes_append, totalBytes_cons, totalBytes_nil]
      omega
    · simp only [totalBytes_append, totalBytes_cons, totalBytes_nil]
      omega

/-! ## Lemmas: the ceiling -/

/-- Every closed volume of two or more pages is within the ceiling. -/
theorem finish_foldl_fits (o : Options) (size : Image → Nat) (cover : Image)
    (hC : 0 < maxSize o) :
    ∀ (l : List Image) (st : LoopState),
      Inv o size cover st l →
      (2 ≤ st.currentImages.length → st.currentSize ≤ maxSize o) →
      (∀ k v, st.parts[k]? = some v → 2 ≤ v.Images.length →
        partCost o size cover k v ≤ maxSize o) →
      ∀ k v, (finish cover (l.foldl (loopStep o size cover) st))[k]? = some v →
        2 ≤ v.Images.length → partCost o size cover k v ≤ maxSize o := by
  intro l
  induction l with
  | nil =>
    intro st hinv hfit hclosed k v hk hv
    simp only [List.foldl_nil, finish] at hk
    split_ifs at hk with hpos
    · rw [List.getElem?_append] at hk
      split_ifs at hk with hlt
      · exact hclosed k v hk hv
      · have hk0 : k - st.parts.length = 0 := by
          by_contra hne
          rw [List.getElem?_eq_none (by simp; omega)] at hk
          cases hk
        rw [hk0] at hk
        simp only [List.getElem?_cons_zero, Option.some.injEq] at hk
        subst hk
        have hke : k = st.parts.length := by omega
        subst hke
        unfold partCost
        rw [← hinv.1]
        exact hfit hv
    · exact hclosed k v hk hv
  | cons a l ih =>
    intro st hinv hfit hclosed
    rw [List.foldl_cons]
    have hinv2 := Inv_step o size cover st a l hinv
    refine ih _ hinv2 ?_ ?_
    · rw [loopStep_exact o size cover st a l hinv]
      split_ifs with hc
      · intro h2; simp at h2
      · intro h2
        simp only [List.length_append, List.length_singleton] at h2
        by_contra hgt
        exact hc ⟨hC, by omega, Nat.lt_of_not_le hgt⟩
    · rw [loopStep_exact o size cover st a l hinv]
      split_ifs with hc
      · intro k v hk hv
        simp only at hk
        rw [List.getElem?_append] at hk
        split_ifs at hk with hlt
        · exact hclosed k v hk hv
        · have hk0 : k - st.parts.length = 0 := by
            by_contra hne
            rw [List.getElem?_eq_none (by simp; omega)] at hk
            cases hk
          rw [hk0] at hk
          simp only [List.getElem?_cons_zero, Option.some.injEq] at hk
          subst hk
          have hke : k = st.parts.length := by omega
          subst hke
          unfold partCost
          rw [← hinv.1]
          exact hfit hv
      · exact hclosed

theorem pack_fits (o : Options) (size : Image → Nat) (cover : Image) (l : List Image)
    (hC : 0 < maxSize o) (hw : noWrap size cover l) :
    ∀ k v, (pack o size cover l)[k]? = some v → 2 ≤ v.Images.length →
      partCost o size cover k v ≤ maxSize o := by
  unfold pack
  refine finish_foldl_fits o size cover hC l _ (Inv_init o size cover l hw) ?_ ?_
  · intro h; simp [initState] at h
  · intro k v hk; simp [initState] at hk

/-! ## Lemmas: a page larger than the ceiling -/

/-- Once a volume in progress holds one page and is already over the ceiling,
it is closed with that page alone. -/
theorem finish_foldl_single (o : Options) (size : Image → Nat) (cover : Image)
    (hC : 0 < maxSize o) (p : Image) (l : List Image) (st : LoopState)
    (hinv : Inv o size cover st l) (hcur : st.currentImages = [p])
    (hover : maxSize o < st.currentSize) :
    ∃ post : List epubPart,
      finish cover (l.foldl (loopStep o size cover) st) =
        st.parts ++ { Cover := cover, Images := [p] } :: post ∧
      post.flatMap epubPart.Images = l := by
  cases l with
  | nil =>
    refine ⟨[], ?_, rfl⟩
    simp [finish, hcur]
  | cons q l =>
    rw [List.foldl_cons, loopStep_exact o size cover st q l hinv]
    have hc : 0 < maxSize o ∧ 0 < st.currentImages.length ∧
        maxSize o < st.currentSize + (u64 (size q) + xhtmlSize) :=
      ⟨hC, by simp [hcur], by omega⟩
    rw [if_pos hc]
    obtain ⟨added, h1, h2, _⟩ := finish_foldl o size cover l
      { parts := st.parts ++ [{ Cover := cover, Images := st.currentImages }]
        part := st.part + 1
        currentSize := 16 * 1024 + 2 * u64 (size cover) + (u64 (size q) + xhtmlSize)
        currentImages := [q] }
    refine ⟨added, ?_, ?_⟩
    · rw [h1, hcur]; simp
    · simpa using h2

/-- A page whose stored size exceeds the ceiling is closed alone; the volumes
before it hold the pages before it, the volumes after it the pages after it. -/
theorem finish_foldl_oversized (o : Options) (size : Image → Nat) (cover : Image)
    (hC : 0 < maxSize o) (p : Image) (l2 : List Image)
    (hp : maxSize o < u64 (size p)) :
    ∀ (l1 : List Image) (st : LoopState),
      Inv o size cover st (l1 ++ p :: l2) →
      ∃ pre post : List epubPart,
        finish cover ((l1 ++ p :: l2).foldl (loopStep o size cover) st) =
          st.parts ++ pre ++ { Cover := cover, Images := [p] } :: post ∧
        pre.flatMap epubPart.Images = st.currentImages ++ l1 ∧
        post.flatMap epubPart.Images = l2 := by
  intro l1
  induction l1 with
  | nil =>
    intro st hinv
    simp only [List.nil_append] at hinv ⊢
    rw [List.foldl_cons]
    have hinv2 := Inv_step o size cover st p l2 hinv
    rw [loopStep_exact o size cover st p l2 hinv] at hinv2 ⊢
    split_ifs at hinv2 ⊢ with hc
    · obtain ⟨post, h1, h2⟩ := finish_foldl_single o size cover hC p l2 _ hinv2 rfl
        (by show maxSize o < 16 * 1024 + 2 * u64 (size cover) + (u64 (size p) + xhtmlSize)
            omega)
      refine ⟨[{ Cover := cover, Images := st.currentImages }], post, ?_, ?_, h2⟩
      · rw [h1]
      · simp
    · have hnil : st.currentImages = [] := by
        cases hcur : st.currentImages with
        | nil => rfl
        | cons b t =>
          exfalso
          exact hc ⟨hC, by simp [hcur], by omega⟩
      obtain ⟨post, h1, h2⟩ := finish_foldl_single o size cover hC p l2 _ hinv2
        (by show st.currentImages ++ [p] = [p]
            rw [hnil]; rfl)
        (by show maxSize o < st.currentSize + (u64 (size p) + xhtmlSize)
            omega)
      refine ⟨[], post, ?_, ?_, h2⟩
      · rw [h1]; simp
      · simp [hnil]
  | cons a l1 ih =>
    intro st hinv
    simp only [List.cons_append] at hinv ⊢
    rw [List.foldl_cons]
    have hinv2 := Inv_step o size cover st a (l1 ++ p :: l2) hinv
    obtain ⟨pre, post, h1, h2, h3⟩ := ih _ hinv2
    rw [h1]
    rw [loopStep_exact o size cover st a (l1 ++ p :: l2) hinv] at h2 ⊢
    split_ifs at h2 ⊢ with hc
    · refine ⟨{ Cover := cover, Images := st.currentImages } :: pre, post, ?_, ?_, h3⟩
      · simp
      · simp only [List.flatMap_cons, h2]; simp
    · refine ⟨pre, post, rfl, ?_, h3⟩
      rw [h2]; simp

theorem pack_oversized (o : Options) (size : Image → Nat) (cover : Image)
    (hC : 0 < maxSize o) (l1 : List Image) (p : Image) (l2 : List Image)
    (hp : maxSize o < u64 (size p)) (hw : noWrap size cover (l1 ++ p :: l2)) :
    ∃ pre post : List epubPart,
      pack o size cover (l1 ++ p :: l2) =
        pre ++ { Cover := cover, Images := [p] } :: post ∧
      pre.flatMap epubPart.Images = l1 ∧ post.flatMap epubPart.Images = l2 := by
  obtain ⟨pre, post, h1, h2, h3⟩ := finish_foldl_oversized o size cover hC p l2 hp l1
    (initState o size cover) (Inv_init o size cover _ hw)
  refine ⟨pre, post, ?_, ?_, h3⟩
  · unfold pack; rw [h1]; simp [initState]
  · simpa [initState] using h2

/-! ## Lemmas: getParts -/

theorem getParts_nondry (o : Options) (env : Env) (loaded : List Image)
    (size : Image → Nat) (cover : Image) (rest : List Image)
    (hload : env.load = .ok loaded) (hsort : sortSlice loaded = cover :: rest)
    (hst : env.storage = .ok size) (hdry : o.Dry = false) :
    getParts o env = .ok (pack o size cover (packed o cover rest)) := by
  simp [getParts, hload, hsort, hst, hdry]

theorem getParts_dry (o : Options) (env : Env) (loaded : List Image)
    (cover : Image) (rest : List Image)
    (hload : env.load = .ok loaded) (hsort : sortSlice loaded = cover :: rest)
    (hdry : o.Dry = true) :
    getParts o env = .ok [{ Cover := cover, Images := packed o cover rest }] := by
  simp [getParts, hload, hsort, hdry]

theorem sortSlice_cons {loaded : List Image} (hne : loaded ≠ []) :
    ∃ cover rest, sortSlice loaded = cover :: rest := by
  cases h : sortSlice loaded with
  | nil => exact absurd h (sortSlice_ne_nil hne)
  | cons c r => exact ⟨c, r, rfl⟩

/-! ## The claims -/

/-- C1: for a non-empty catalogue, whatever the ceiling and the page sizes, the
page lists of the volumes returned by non-dry `getParts`, concatenated in
volume order, are the catalogue sorted ascending by `(Id, Part)`, without its
first page when `HasCover` is set. -/
theorem getParts_partition (o : Options) (env : Env) (loaded : List Image)
    (size : Image → Nat)
    (hload : env.load = .ok loaded) (hne : loaded ≠ [])
    (hst : env.storage = .ok size) (hdry : o.Dry = false) :
    ∃ parts, getParts o env = .ok parts ∧
      parts.flatMap epubPart.Images =
        (if o.Image.HasCover then (sortSlice loaded).tail else sortSlice loaded) ∧
      List.Sorted (fun a b => a.Id < b.Id ∨ (a.Id = b.Id ∧ a.Part ≤ b.Part))
        (sortSlice loaded) ∧
      (sortSlice loaded).Perm loaded := by
  obtain ⟨cover, rest, hsort⟩ := sortSlice_cons hne
  refine ⟨_, getParts_nondry o env loaded size cover rest hload hsort hst hdry, ?_,
    sortSlice_sorted loaded, sortSlice_perm loaded⟩
  rw [pack_flatMap, hsort]
  unfold packed
  cases o.Image.HasCover <;> simp

/-- Witness of C1: three pages loaded out of order, a 20 MB ceiling, the first
page being the cover. -/
theorem getParts_partition_witness :
    ((sampleEnv [samplePage 2, samplePage 0, samplePage 1] (fun _ => 9000000)).load =
        .ok [samplePage 2, samplePage 0, samplePage 1] ∧
      [samplePage 2, samplePage 0, samplePage 1] ≠ [] ∧
      (sampleOptions 20 true).Dry = false) ∧
    ∃ parts,
      getParts (sampleOptions 20 true)
          (sampleEnv [samplePage 2, samplePage 0, samplePage 1] (fun _ => 9000000)) =
        .ok parts ∧
      parts.flatMap epubPart.Images =
        (if (sampleOptions 20 true).Image.HasCover then
          (sortSlice [samplePage 2, samplePage 0, samplePage 1]).tail
         else sortSlice [samplePage 2, samplePage 0, samplePage 1]) ∧
      List.Sorted (fun a b => a.Id < b.Id ∨ (a.Id = b.Id ∧ a.Part ≤ b.Part))
        (sortSlice [samplePage 2, samplePage 0, samplePage 1]) ∧
      (sortSlice [samplePage 2, samplePage 0, samplePage 1]).Perm
        [samplePage 2, samplePage 0, samplePage 1] :=
  ⟨⟨rfl, by decide, rfl⟩,
    getParts_partition (sampleOptions 20 true)
      (sampleEnv [samplePage 2, samplePage 0, samplePage 1] (fun _ => 9000000))
      [samplePage 2, samplePage 0, samplePage 1] (fun _ => 9000000)
      rfl (by decide) rfl rfl⟩

/-- C2, counterexample: with a 20 MB ceiling, a 1000-byte cover and one page of
20 MB less 100 bytes, the only volume holds that single page, the page is not
larger than the ceiling, and the accounted cost of the volume exceeds the
ceiling. -/
theorem getParts_single_page_over_ceiling :
    getParts (sampleOptions 20 true)
        (sampleEnv [samplePage 0, samplePage 1] (sizeById [1000, 20971420])) =
      .ok [{ Cover := samplePage 0, Images := [samplePage 1] }] ∧
    noWrap (sizeById [1000, 20971420]) (samplePage 0) [samplePage 1] ∧
    u64 (sizeById [1000, 20971420] (samplePage 1)) ≤ maxSize (sampleOptions 20 true) ∧
    maxSize (sampleOptions 20 true) <
      partCost (sampleOptions 20 true) (sizeById [1000, 20971420]) (samplePage 0) 0
        { Cover := samplePage 0, Images := [samplePage 1] } := by
  refine ⟨by decide, by decide, by decide, by decide⟩

/-- C2, amended: for a ceiling C > 0 and sizes that do not wrap, every volume
returned by `getParts` that holds two or more pages has accounted cost at most
C, the cost being the 16 KiB overhead, the cover bytes counted for that volume,
and for each page its stored bytes plus 1024. -/
theorem getParts_fits (o : Options) (env : Env) (loaded : List Image)
    (size : Image → Nat) (cover : Image) (rest : List Image)
    (hload : env.load = .ok loaded) (hsort : sortSlice loaded = cover :: rest)
    (hst : env.storage = .ok size) (hdry : o.Dry = false)
    (hC : 0 < maxSize o) (hw : noWrap size cover (packed o cover rest)) :
    ∃ parts, getParts o env = .ok parts ∧
      ∀ k v, parts[k]? = some v → 2 ≤ v.Images.length →
        partCost o size cover k v ≤ maxSize o :=
  ⟨_, getParts_nondry o env loaded size cover rest hload hsort hst hdry,
    pack_fits o size cover _ hC hw⟩

/-- Witness of C2: five pages of 9 MB behind a 1000-byte cover, 20 MB ceiling. -/
theorem getParts_fits_witness :
    (sortSlice [samplePage 0, samplePage 1, samplePage 2, samplePage 3, samplePage 4,
        samplePage 5] =
        samplePage 0 ::
          [samplePage 1, samplePage 2, samplePage 3, samplePage 4, samplePage 5] ∧
      0 < maxSize (sampleOptions 20 true) ∧
      noWrap (sizeById [1000, 9000000, 9000000, 9000000, 9000000, 9000000]) (samplePage 0)
        (packed (sampleOptions 20 true) (samplePage 0)
          [samplePage 1, samplePage 2, samplePage 3, samplePage 4, samplePage 5])) ∧
    ∃ parts,
      getParts (sampleOptions 20 true)
          (sampleEnv [samplePage 0, samplePage 1, samplePage 2, samplePage 3, samplePage 4,
            samplePage 5] (sizeById [1000, 9000000, 9000000, 9000000, 9000000, 9000000])) =
        .ok parts ∧
      ∀ k v, parts[k]? = some v → 2 ≤ v.Images.length →
        partCost (sampleOptions 20 true)
          (sizeById [1000, 9000000, 9000000, 9000000, 9000000, 9000000])
          (samplePage 0) k v ≤ maxSize (sampleOptions 20 true) :=
  ⟨⟨by decide, by decide, by decide⟩,
    getParts_fits (sampleOptions 20 true)
      (sampleEnv [samplePage 0, samplePage 1, samplePage 2, samplePage 3, samplePage 4,
        samplePage 5] (sizeById [1000, 9000000, 9000000, 9000000, 9000000, 9000000]))
      [samplePage 0, samplePage 1, samplePage 2, samplePage 3, samplePage 4, samplePage 5]
      (sizeById [1000, 9000000, 9000000, 9000000, 9000000, 9000000])
      (samplePage 0)
      [samplePage 1, samplePage 2, samplePage 3, samplePage 4, samplePage 5]
      rfl (by decide) rfl rfl (by decide) (by decide)⟩

/-- C3, counterexample: (a) with `HasCover` set, a cover larger than the 20 MB
ceiling is in no volume at all; (b) a page whose stored size is `2^64 - 1024`
has marginal cost 0 after the wrap and shares its volume with the page before
it. -/
theorem getParts_oversized_not_alone :
    (getParts (sampleOptions 20 true)
        (sampleEnv [samplePage 0, samplePage 1] (sizeById [30000000, 1000])) =
        .ok [{ Cover := samplePage 0, Images := [samplePage 1] }] ∧
      maxSize (sampleOptions 20 true) <
        u64 (sizeById [30000000, 1000] (samplePage 0)) ∧
      samplePage 0 ∉ [samplePage 1]) ∧
    (getParts (sampleOptions 20 false)
        (sampleEnv [samplePage 0, samplePage 1] (sizeById [0, 2 ^ 64 - 1024])) =
        .ok [{ Cover := samplePage 0, Images := [samplePage 0, samplePage 1] }] ∧
      maxSize (sampleOptions 20 false) <
        u64 (sizeById [0, 2 ^ 64 - 1024] (samplePage 1))) := by
  refine ⟨⟨by decide, by decide, by decide⟩, by decide, by decide⟩

/-- C3, amended: for a ceiling C > 0 and sizes that do not wrap, a page handed
to the packing loop (any page but the cover when `HasCover` is set) whose
stored size alone exceeds C is returned, without error, as a volume of its own:
the volumes before it hold exactly the pages before it and the volumes after it
exactly the pages after it. -/
theorem getParts_oversized_alone (o : Options) (env : Env) (loaded : List Image)
    (size : Image → Nat) (cover : Image) (rest l1 : List Image) (p : Image)
    (l2 : List Image)
    (hload : env.load = .ok loaded) (hsort : sortSlice loaded = cover :: rest)
    (hst : env.storage = .ok size) (hdry : o.Dry = false)
    (hC : 0 < maxSize o) (hw : noWrap size cover (packed o cover rest))
    (hpos : packed o cover rest = l1 ++ p :: l2) (hp : maxSize o < u64 (size p)) :
    ∃ pre post : List epubPart,
      getParts o env = .ok (pre ++ { Cover := cover, Images := [p] } :: post) ∧
      pre.flatMap epubPart.Images = l1 ∧ post.flatMap epubPart.Images = l2 := by
  rw [getParts_nondry o env loaded size cover rest hload hsort hst hdry]
  rw [hpos] at hw ⊢
  obtain ⟨pre, post, h1, h2, h3⟩ := pack_oversized o size cover hC l1 p l2 hp hw
  exact ⟨pre, post, by rw [h1], h2, h3⟩

/-- Witness of C3: a 30 MB page between two 1000-byte pages, 20 MB ceiling. -/
theorem getParts_oversized_alone_witness :
    (sortSlice [samplePage 0, samplePage 1, samplePage 2, samplePage 3] =
        samplePage 0 :: [samplePage 1, samplePage 2, samplePage 3] ∧
      0 < maxSize (sampleOptions 20 true) ∧
      noWrap (sizeById [1000, 1000, 30000000, 1000]) (samplePage 0)
        (packed (sampleOptions 20 true) (samplePage 0)
          [samplePage 1, samplePage 2, samplePage 3]) ∧
      packed (sampleOptions 20 true) (samplePage 0)
          [samplePage 1, samplePage 2, samplePage 3] =
        [samplePage 1] ++ samplePage 2 :: [samplePage 3] ∧
      maxSize (sampleOptions 20 true) <
        u64 (sizeById [1000, 1000, 30000000, 1000] (samplePage 2))) ∧
    ∃ pre post : List epubPart,
      getParts (sampleOptions 20 true)
          (sampleEnv [samplePage 0, samplePage 1, samplePage 2, samplePage 3]
            (sizeById [1000, 1000, 30000000, 1000])) =
        .ok (pre ++ { Cover := samplePage 0, Images := [samplePage 2] } :: post) ∧
      pre.flatMap epubPart.Images = [samplePage 1] ∧
      post.flatMap epubPart.Images = [samplePage 3] :=
  ⟨⟨by decide, by decide, by decide, by decide, by decide⟩,
    getParts_oversized_alone (sampleOptions 20 true)
      (sampleEnv [samplePage 0, samplePage 1, samplePage 2, samplePage 3]
        (sizeById [1000, 1000, 30000000, 1000]))
      [samplePage 0, samplePage 1, samplePage 2, samplePage 3]
      (sizeById [1000, 1000, 30000000, 1000]) (samplePage 0)
      [samplePage 1, samplePage 2, samplePage 3] [samplePage 1] (samplePage 2)
      [samplePage 3]
      rfl (by decide) rfl rfl (by decide) (by decide) (by decide) (by decide)⟩

/-- C4, counterexample: for five pages of 2 MB each, `HasCover` not set and a
5 MB ceiling, `getParts` does not return the volumes `[p1,p2]`, `[p3,p4]`,
`[p5]`. -/
theorem getParts_five_pages_not_greedy_pairs :
    getParts (sampleOptions 5 false)
        (sampleEnv [samplePage 1, samplePage 2, samplePage 3, samplePage 4, samplePage 5]
          (fun _ => 2 * 1024 * 1024)) ≠
      .ok [{ Cover := samplePage 1, Images := [samplePage 1, samplePage 2] },
           { Cover := samplePage 1, Images := [samplePage 3, samplePage 4] },
           { Cover := samplePage 1, Images := [samplePage 5] }] := by
  decide

/-- C4, amended: for five pages p1..p5 of 2 MB each, `HasCover` not set and a
5 MB ceiling, `getParts` returns five volumes of one page each, because every
volume starts with the 16 KiB overhead plus the bytes of the cover p1 (once in
the first volume, twice in the others); the packing `[p1,p2]`, `[p3,p4]`,
`[p5]` is what it returns when the five pages follow a separate cover of
negligible size (`HasCover` set, an empty cover p0). -/
theorem getParts_five_pages :
    getParts (sampleOptions 5 false)
        (sampleEnv [samplePage 1, samplePage 2, samplePage 3, samplePage 4, samplePage 5]
          (fun _ => 2 * 1024 * 1024)) =
      .ok [{ Cover := samplePage 1, Images := [samplePage 1] },
           { Cover := samplePage 1, Images := [samplePage 2] },
           { Cover := samplePage 1, Images := [samplePage 3] },
           { Cover := samplePage 1, Images := [samplePage 4] },
           { Cover := samplePage 1, Images := [samplePage 5] }] ∧
    getParts (sampleOptions 5 true)
        (sampleEnv [samplePage 0, samplePage 1, samplePage 2, samplePage 3, samplePage 4,
            samplePage 5]
          (sizeById [0, 2 * 1024 * 1024, 2 * 1024 * 1024, 2 * 1024 * 1024,
            2 * 1024 * 1024, 2 * 1024 * 1024])) =
      .ok [{ Cover := samplePage 0, Images := [samplePage 1, samplePage 2] },
           { Cover := samplePage 0, Images := [samplePage 3, samplePage 4] },
           { Cover := samplePage 0, Images := [samplePage 5] }] := by
  refine ⟨by decide, by decide⟩

/-- C5, counterexample: with ceiling 0 and `HasCover` set, a catalogue holding
only the cover yields zero volumes, not one. -/
theorem getParts_unlimited_cover_only :
    maxSize (sampleOptions 0 true) = 0 ∧
    getParts (sampleOptions 0 true) (sampleEnv [samplePage 0] (fun _ => 1000)) =
      .ok [] := by
  refine ⟨by decide, by decide⟩

/-- C5, amended: when the ceiling is 0 and at least one page is left to pack
(the catalogue is non-empty once the cover is removed when `HasCover` is set),
non-dry `getParts` returns exactly one volume, and it holds all the pages to
pack, whatever their sizes. -/
theorem getParts_unlimited (o : Options) (env : Env) (loaded : List Image)
    (size : Image → Nat) (cover : Image) (rest : List Image)
    (hload : env.load = .ok loaded) (hsort : sortSlice loaded = cover :: rest)
    (hst : env.storage = .ok size) (hdry : o.Dry = false)
    (h0 : maxSize o = 0) (hne : packed o cover rest ≠ []) :
    getParts o env = .ok [{ Cover := cover, Images := packed o cover rest }] := by
  rw [getParts_nondry o env loaded size cover rest hload hsort hst hdry,
    pack_unlimited o size cover h0 _ hne]

/-- Witness of C5: a cover and two pages, `LimitMb = 0`. -/
theorem getParts_unlimited_witness :
    (sortSlice [samplePage 0, samplePage 1, samplePage 2] =
        samplePage 0 :: [samplePage 1, samplePage 2] ∧
      maxSize (sampleOptions 0 true) = 0 ∧
      packed (sampleOptions 0 true) (samplePage 0) [samplePage 1, samplePage 2] ≠ []) ∧
    getParts (sampleOptions 0 true)
        (sampleEnv [samplePage 0, samplePage 1, samplePage 2] (fun _ => 30000000)) =
      .ok [{ Cover := samplePage 0,
             Images := packed (sampleOptions 0 true) (samplePage 0)
               [samplePage 1, samplePage 2] }] :=
  ⟨⟨by decide, by decide, by decide⟩,
    getParts_unlimited (sampleOptions 0 true)
      (sampleEnv [samplePage 0, samplePage 1, samplePage 2] (fun _ => 30000000))
      [samplePage 0, samplePage 1, samplePage 2] (fun _ => 30000000) (samplePage 0)
      [samplePage 1, samplePage 2] rfl (by decide) rfl rfl (by decide) (by decide)⟩

/-- C6: when the image processor loads zero images without error, `getParts`
stops with a runtime fault at `images[0]`; it does not return zero volumes. -/
theorem getParts_empty_crash (o : Options) (env : Env) (hload : env.load = .ok []) :
    getParts o env = .crash := by
  simp [getParts, hload, sortSlice]

/-- Witness of C6: the empty catalogue. -/
theorem getParts_empty_crash_witness :
    (sampleEnv [] (fun _ => 0)).load = .ok [] ∧
    getParts (sampleOptions 20 true) (sampleEnv [] (fun _ => 0)) = .crash :=
  ⟨rfl, getParts_empty_crash (sampleOptions 20 true) (sampleEnv [] (fun _ => 0)) rfl⟩

/-- C7: whenever `getParts` yields zero volumes, non-dry `Write` attempts no
operation on the zip writer and returns a `nil` error. -/
theorem Write_zero_volumes (o : Options) (env : Env) (hdry : o.Dry = false)
    (hparts : getParts o env = .ok []) :
    Write o env = ([], .ok ()) := by
  simp [Write, hparts, hdry, writeParts]

/-- Witness of C7: a catalogue holding only the cover image, `HasCover` set. -/
theorem Write_zero_volumes_witness :
    ((sampleOptions 20 true).Dry = false ∧
      getParts (sampleOptions 20 true) (sampleEnv [samplePage 0] (fun _ => 1000)) =
        .ok []) ∧
    Write (sampleOptions 20 true) (sampleEnv [samplePage 0] (fun _ => 1000)) =
      ([], .ok ()) :=
  ⟨⟨rfl, by decide⟩,
    Write_zero_volumes (sampleOptions 20 true)
      (sampleEnv [samplePage 0] (fun _ => 1000)) rfl (by decide)⟩

/-- C8: in dry-run mode, for every non-empty catalogue and every `LimitMb`,
`getParts` returns exactly one volume holding all the pages (all but the cover
when `HasCover` is set); the result is the same whatever the image storage is,
even one that cannot be opened, so no page size is consulted; and `Write`
reads the first volume and returns a `nil` error. -/
theorem getParts_dry_single_volume (o : Options) (env : Env) (loaded : List Image)
    (hload : env.load = .ok loaded) (hne : loaded ≠ []) (hdry : o.Dry = true) :
    ∃ cover rest,
      sortSlice loaded = cover :: rest ∧
      (∀ (limitMb : Int) (storage : Except String (Image → Nat)),
        getParts { o with LimitMb := limitMb } { env with storage := storage } =
          .ok [{ Cover := cover,
                 Images := if o.Image.HasCover then rest else cover :: rest }]) ∧
      (∀ (limitMb : Int) (storage : Except String (Image → Nat)),
        (Write { o with LimitMb := limitMb } { env with storage := storage }).2 =
          .ok ()) := by
  obtain ⟨cover, rest, hsort⟩ := sortSlice_cons hne
  have hg : ∀ (limitMb : Int) (storage : Except String (Image → Nat)),
      getParts { o with LimitMb := limitMb } { env with storage := storage } =
        .ok [{ Cover := cover,
               Images := if o.Image.HasCover then rest else cover :: rest }] := by
    intro limitMb storage
    exact getParts_dry { o with LimitMb := limitMb } { env with storage := storage }
      loaded cover rest hload hsort hdry
  refine ⟨cover, rest, hsort, hg, ?_⟩
  intro limitMb storage
  have h := hg limitMb storage
  unfold Write
  rw [h]
  simp [hdry]

/-- Witness of C8: a dry run over a cover and two pages. -/
theorem getParts_dry_single_volume_witness :
    ([samplePage 0, samplePage 1, samplePage 2] ≠ [] ∧
      ({ sampleOptions 20 true with Dry := true } : Options).Dry = true) ∧
    ∃ cover rest,
      sortSlice [samplePage 0, samplePage 1, samplePage 2] = cover :: rest ∧
      (∀ (limitMb : Int) (storage : Except String (Image → Nat)),
        getParts { ({ sampleOptions 20 true with Dry := true } : Options) with
              LimitMb := limitMb }
            { sampleEnv [samplePage 0, samplePage 1, samplePage 2] (fun _ => 0) with
              storage := storage } =
          .ok [{ Cover := cover,
                 Images :=
                   if ({ sampleOptions 20 true with Dry := true } : Options).Image.HasCover
                   then rest else cover :: rest }]) ∧
      (∀ (limitMb : Int) (storage : Except String (Image → Nat)),
        (Write { ({ sampleOptions 20 true with Dry := true } : Options) with
              LimitMb := limitMb }
            { sampleEnv [samplePage 0, samplePage 1, samplePage 2] (fun _ => 0) with
              storage := storage }).2 = .ok ()) :=
  ⟨⟨by decide, rfl⟩,
    getParts_dry_single_volume { sampleOptions 20 true with Dry := true }
      (sampleEnv [samplePage 0, samplePage 1, samplePage 2] (fun _ => 0))
      [samplePage 0, samplePage 1, samplePage 2] rfl (by decide) rfl⟩

/-! ## Lemmas: the page loop of Write -/

theorem andThen_ok (r : Run) (k : List Event → Run) (h : (andThen r k).2 = .ok ()) :
    r.2 = .ok () ∧ andThen r k = k r.1 := by
  obtain ⟨tr, out⟩ := r
  cases out with
  | ok u => cases u; exact ⟨rfl, rfl⟩
  | error e => simp [andThen] at h
  | crash => simp [andThen] at h

theorem emit_fst (env : Env) (ev : Event) (tr : List Event) :
    (emit env ev tr).1 = tr ++ [ev] := rfl

theorem writeImage_ok (env : Env) (img : Image) (tr : List Event)
    (h : (writeImage env img tr).2 = .ok ()) :
    (writeImage env img tr).1 = tr ++ [.pageContent img, .copy img] := by
  unfold writeImage at h ⊢
  obtain ⟨_, h2⟩ := andThen_ok _ _ h
  rw [h2, emit_fst, emit_fst]
  simp

/-- A page loop that ends without error has attempted, for each page in order,
the page markup, the image copy, and a blank page when `needsBlank` holds. -/
theorem writePages_ok (env : Env) (last : Image) :
    ∀ (pages : List Image) (tr : List Event),
      (writePages env last pages tr).2 = .ok () →
      (writePages env last pages tr).1 =
        tr ++ pages.flatMap fun img =>
          [Event.pageContent img, Event.copy img] ++
            if needsBlank last img then [Event.blank img] else [] := by
  intro pages
  induction pages with
  | nil => intro tr _; simp [writePages]
  | cons img rest ih =>
    intro tr h
    unfold writePages at h ⊢
    obtain ⟨h1, h2⟩ := andThen_ok _ _ h
    rw [h2] at h ⊢
    obtain ⟨h3, h4⟩ := andThen_ok _ _ h
    rw [h4] at h ⊢
    rw [ih _ h, writeImage_ok env img tr h1]
    cases hb : needsBlank last img
    · simp [hb]
    · simp [hb, writeBlank, emit_fst]

/-- With pairwise distinct addresses, only the page in final position has the
address of the last page. -/
theorem addr_eq_last_iff (pages : List Image) (last : Image)
    (hlast : pages.getLast? = some last) (hnd : (pages.map Image.addr).Nodup)
    (i : Nat) (img : Image) (hi : pages[i]? = some img) :
    img.addr = last.addr ↔ i + 1 = pages.length := by
  have hlen : i < pages.length := by
    by_contra hge
    rw [List.getElem?_eq_none (by omega)] at hi
    cases hi
  have hl : pages[pages.length - 1]? = some last := by
    rw [← hlast, List.getLast?_eq_getElem?]
  have hm1 : (pages.map Image.addr)[i]? = some img.addr := by
    rw [List.getElem?_map, hi]; rfl
  have hm2 : (pages.map Image.addr)[pages.length - 1]? = some last.addr := by
    rw [List.getElem?_map, hl]; rfl
  constructor
  · intro heq
    rw [← heq] at hm2
    by_contra hne
    exact List.nodup_iff_getElem?_ne_getElem?.1 hnd i (pages.length - 1) (by omega)
      (by rw [List.length_map]; omega) (by rw [hm1, hm2])
  · intro hi1
    have : i = pages.length - 1 := by omega
    subst this
    rw [hl] at hi
    cases hi
    rfl

theorem writeContents_ok (env : Env) :
    ∀ (names : List String) (tr : List Event),
      (writeContents env names tr).2 = .ok () →
      (writeContents env names tr).1 = tr ++ names.map Event.content := by
  intro names
  induction names with
  | nil => intro tr _; simp [writeContents]
  | cons name rest ih =>
    intro tr h
    unfold writeContents at h ⊢
    obtain ⟨_, h2⟩ := andThen_ok _ _ h
    rw [h2] at h ⊢
    rw [ih _ h, emit_fst]
    simp

/-- The guard of the blank page, read by position in the volume. -/
theorem needsBlank_iff (pages : List Image) (last : Image)
    (hlast : pages.getLast? = some last) (hnd : (pages.map Image.addr).Nodup)
    (i : Nat) (img : Image) (hi : pages[i]? = some img) :
    needsBlank last img = true ↔
      (img.DoublePage = true ∨ (img.Part = 0 ∧ i + 1 = pages.length)) := by
  have := addr_eq_last_iff pages last hlast hnd i img hi
  simp [needsBlank, this]

theorem flatMap_needsBlank (pages : List Image) (last : Image)
    (hlast : pages.getLast? = some last) (hnd : (pages.map Image.addr).Nodup) :
    (pages.flatMap fun img =>
        [Event.pageContent img, Event.copy img] ++
          if needsBlank last img then [Event.blank img] else []) =
      pages.enum.flatMap fun p =>
        [Event.pageContent p.2, Event.copy p.2] ++
          if p.2.DoublePage = true ∨ (p.2.Part = 0 ∧ p.1 + 1 = pages.length) then
            [Event.blank p.2]
          else [] := by
  conv_lhs => rw [← List.enum_map_snd pages, List.flatMap_map]
  rw [List.flatMap_def, List.flatMap_def]
  congr 1
  apply List.map_congr_left
  rintro ⟨i, img⟩ hmem
  have hi := List.mk_mem_enum_iff_getElem?.1 hmem
  have hiff := needsBlank_iff pages last hlast hnd i img hi
  by_cases hb : needsBlank last img = true
  · simp only [hb, if_true, if_pos (hiff.1 hb)]
  · have hn : ¬ (img.DoublePage = true ∨ (img.Part = 0 ∧ i + 1 = pages.length)) :=
      fun h => hb (hiff.2 h)
    simp only [hb, if_neg hn]
    simp

/-- C9, counterexample: (a) in an output of two volumes, the final page of the
first volume is not flagged `DoublePage` and a blank page is written right
after it, before the second volume is created; (b) in a single-volume book
whose final page is a half of a split image (`Part = 2`) not flagged
`DoublePage`, no blank page is written after it. -/
theorem Write_blank_not_single_volume_rule :
    (getParts (sampleOptions 20 true)
        (sampleEnv [samplePage 0, samplePage 1, samplePage 2] (fun _ => 15000000)) =
        .ok [{ Cover := samplePage 0, Images := [samplePage 1] },
             { Cover := samplePage 0, Images := [samplePage 2] }] ∧
      (samplePage 1).DoublePage = false ∧
      (Write (sampleOptions 20 true)
        (sampleEnv [samplePage 0, samplePage 1, samplePage 2] (fun _ => 15000000))).2 =
        .ok () ∧
      [Event.copy (samplePage 1), Event.blank (samplePage 1),
        Event.create (volumePath (sampleOptions 20 true).Output 2 1)] <:+:
        (Write (sampleOptions 20 true)
          (sampleEnv [samplePage 0, samplePage 1, samplePage 2]
            (fun _ => 15000000))).1) ∧
    (getParts (sampleOptions 20 true)
        (sampleEnv [samplePage 0, { addr := 1, Id := 1, Part := 1, DoublePage := false },
            { addr := 2, Id := 1, Part := 2, DoublePage := false }] (fun _ => 1000)) =
        .ok [{ Cover := samplePage 0,
               Images := [{ addr := 1, Id := 1, Part := 1, DoublePage := false },
                 { addr := 2, Id := 1, Part := 2, DoublePage := false }] }] ∧
      (Write (sampleOptions 20 true)
        (sampleEnv [samplePage 0, { addr := 1, Id := 1, Part := 1, DoublePage := false },
            { addr := 2, Id := 1, Part := 2, DoublePage := false }] (fun _ => 1000))).2 =
        .ok () ∧
      Event.blank { addr := 2, Id := 1, Part := 2, DoublePage := false } ∉
        (Write (sampleOptions 20 true)
          (sampleEnv [samplePage 0, { addr := 1, Id := 1, Part := 1, DoublePage := false },
              { addr := 2, Id := 1, Part := 2, DoublePage := false }]
            (fun _ => 1000))).1) := by
  refine ⟨⟨by decide, by decide, by decide, by decide⟩, by decide, by decide, by decide⟩

/-- C9, amended: a volume written without error carries, after its front
matter, for each page in order the page markup and the image copy, followed by
one blank page exactly when the page is flagged `DoublePage` or is an unsplit
page (`Part = 0`) in final position in its volume; the number of volumes plays
no part, so this holds for each volume of a multi-volume output too. -/
theorem writePart_blank_pages (o : Options) (env : Env) (totalParts i : Nat)
    (part : epubPart) (tr : List Event)
    (hnd : (part.Images.map Image.addr).Nodup)
    (hok : (writePart o env totalParts i part tr).2 = .ok ()) :
    (writePart o env totalParts i part tr).1 =
      tr ++
        ([Event.create (volumePath o.Output totalParts i), Event.magic] ++
          contentNames.map Event.content ++
          [Event.coverTitle part.Cover, Event.raw] ++
          (if o.Image.HasCover = true ∨ 0 < i then
            [Event.pageContent part.Cover, Event.copy part.Cover]
           else [])) ++
        part.Images.enum.flatMap fun p =>
          [Event.pageContent p.2, Event.copy p.2] ++
            if p.2.DoublePage = true ∨ (p.2.Part = 0 ∧ p.1 + 1 = part.Images.length) then
              [Event.blank p.2]
            else [] := by
  unfold writePart at hok ⊢
  obtain ⟨_, e1⟩ := andThen_ok _ _ hok
  rw [e1] at hok ⊢
  obtain ⟨_, e2⟩ := andThen_ok _ _ hok
  rw [e2] at hok ⊢
  obtain ⟨c3, e3⟩ := andThen_ok _ _ hok
  rw [e3] at hok ⊢
  obtain ⟨_, e4⟩ := andThen_ok _ _ hok
  rw [e4] at hok ⊢
  obtain ⟨_, e5⟩ := andThen_ok _ _ hok
  rw [e5] at hok ⊢
  obtain ⟨c6, e6⟩ := andThen_ok _ _ hok
  rw [e6] at hok ⊢
  cases hlast : part.Images.getLast? with
  | none => rw [hlast] at hok; simp at hok
  | some last =>
    rw [hlast] at hok
    simp only at hok ⊢
    rw [writePages_ok env last _ _ hok, flatMap_needsBlank _ last hlast hnd]
    congr 1
    have hc := writeContents_ok env contentNames _ c3
    by_cases hcov : o.Image.HasCover = true ∨ 0 < i
    · have hcov2 : (o.Image.HasCover || decide (i > 0)) = true := by
        rcases hcov with h | h <;> simp [h]
      rw [if_pos hcov2] at c6 ⊢
      rw [if_pos hcov, writeImage_ok env _ _ c6, emit_fst, emit_fst, hc, emit_fst, emit_fst]
      simp
    · have hcov2 : ¬ ((o.Image.HasCover || decide (i > 0)) = true) := by
        intro h
        apply hcov
        simpa using h
      rw [if_neg hcov2, if_neg hcov, emit_fst, emit_fst, hc, emit_fst, emit_fst]
      simp

/-- Witness of C9: the second volume of two, holding a double page and then an
unsplit page. -/
theorem writePart_blank_pages_witness :
    ((({ Cover := samplePage 0,
          Images := [{ addr := 1, Id := 1, Part := 0, DoublePage := true },
            samplePage 2] } : epubPart).Images.map Image.addr).Nodup ∧
      (writePart (sampleOptions 20 true) (sampleEnv [] (fun _ => 0)) 2 1
        { Cover := samplePage 0,
          Images := [{ addr := 1, Id := 1, Part := 0, DoublePage := true },
            samplePage 2] } []).2 = .ok ()) ∧
    (writePart (sampleOptions 20 true) (sampleEnv [] (fun _ => 0)) 2 1
        { Cover := samplePage 0,
          Images := [{ addr := 1, Id := 1, Part := 0, DoublePage := true },
            samplePage 2] } []).1 =
      [] ++
        ([Event.create (volumePath (sampleOptions 20 true).Output 2 1), Event.magic] ++
          contentNames.map Event.content ++
          [Event.coverTitle (samplePage 0), Event.raw] ++
          (if (sampleOptions 20 true).Image.HasCover = true ∨ 0 < 1 then
            [Event.pageContent (samplePage 0), Event.copy (samplePage 0)]
           else [])) ++
        ([{ addr := 1, Id := 1, Part := 0, DoublePage := true },
            samplePage 2] : List Image).enum.flatMap fun p =>
          [Event.pageContent p.2, Event.copy p.2] ++
            if p.2.DoublePage = true ∨ (p.2.Part = 0 ∧ p.1 + 1 =
                ([{ addr := 1, Id := 1, Part := 0, DoublePage := true },
                  samplePage 2] : List Image).length) then
              [Event.blank p.2]
            else [] :=
  ⟨⟨by decide, by decide⟩,
    writePart_blank_pages (sampleOptions 20 true) (sampleEnv [] (fun _ => 0)) 2 1
      { Cover := samplePage 0,
        Images := [{ addr := 1, Id := 1, Part := 0, DoublePage := true }, samplePage 2] }
      [] (by decide) (by decide)⟩

/-! ## Lemmas: output paths -/

theorem extScan_suffix :
    ∀ (rev acc : List Char), extScan rev acc <:+ rev.reverse ++ acc := by
  intro rev
  induction rev with
  | nil => intro acc; simp [extScan]
  | cons c rev ih =>
    intro acc
    unfold extScan
    split_ifs with h1 h2
    · exact List.nil_suffix
    · simp only [List.reverse_cons, List.append_assoc, List.singleton_append]
      exact List.suffix_append _ _
    · have := ih (c :: acc)
      simpa using this

theorem Ext_suffix (path : List Char) : Ext path <:+ path := by
  have := extScan_suffix path.reverse []
  simpa [Ext] using this

/-- The output name is its stem followed by its extension. -/
theorem take_append_Ext (path : List Char) :
    path.take (path.length - (Ext path).length) ++ Ext path = path := by
  have h := List.suffix_iff_eq_drop.1 (Ext_suffix path)
  conv_lhs => rw [h]
  simp only [List.length_drop]
  have hle : (Ext path).length ≤ path.length := (Ext_suffix path).length_le
  have : path.length - (path.length - (path.length - (Ext path).length)) =
      path.length - (Ext path).length := by omega
  rw [this]
  exact List.take_append_drop _ _

theorem digitChar_value (d : Nat) (h : d < 10) :
    (Nat.digitChar d).toNat - 48 = d := by
  interval_cases d <;> rfl

/-- Reading back the digits produced by `Nat.toDigitsCore`. -/
theorem digitsValue_toDigitsCore :
    ∀ (f n : Nat) (ds : List Char), n < f →
      (Nat.toDigitsCore 10 f n ds).foldl (fun acc c => 10 * acc + (c.toNat - 48)) 0 =
        ds.foldl (fun acc c => 10 * acc + (c.toNat - 48)) n := by
  intro f
  induction f with
  | zero => intro n ds h; omega
  | succ f ih =>
    intro n ds h
    unfold Nat.toDigitsCore
    simp only
    split_ifs with h0
    · simp only [List.foldl_cons, Nat.mul_zero, Nat.zero_add]
      rw [digitChar_value _ (Nat.mod_lt _ (by norm_num))]
      have : n % 10 = n := by omega
      rw [this]
    · rw [ih (n / 10) _ (by omega)]
      simp only [List.foldl_cons]
      rw [digitChar_value _ (Nat.mod_lt _ (by norm_num))]
      have : 10 * (n / 10) + n % 10 = n := by omega
      rw [this]

theorem digitsValue_Sprint (n : Nat) : digitsValue (Sprint n) = n := by
  unfold digitsValue Sprint Nat.toDigits
  rw [digitsValue_toDigitsCore (n + 1) n [] (by omega)]
  rfl

theorem digitsValue_zeros (k : Nat) (s : List Char) :
    digitsValue (List.replicate k '0' ++ s) = digitsValue s := by
  induction k with
  | zero => rfl
  | succ k ih =>
    rw [List.replicate_succ, List.cons_append]
    unfold digitsValue at ih ⊢
    rw [List.foldl_cons]
    exact ih

theorem digitsValue_padZero (w n : Nat) : digitsValue (padZero w n) = n := by
  unfold padZero
  rw [digitsValue_zeros, digitsValue_Sprint]

/-- The number of digits bounds the number from above. -/
theorem toDigitsCore_bound :
    ∀ (f n : Nat) (ds : List Char), n < f →
      ∃ k, (Nat.toDigitsCore 10 f n ds).length = k + 1 + ds.length ∧ n < 10 ^ (k + 1) := by
  intro f
  induction f with
  | zero => intro n ds h; omega
  | succ f ih =>
    intro n ds h
    unfold Nat.toDigitsCore
    simp only
    split_ifs with h0
    · exact ⟨0, by simp; omega, by omega⟩
    · obtain ⟨k, hk1, hk2⟩ := ih (n / 10) (Nat.digitChar (n % 10) :: ds) (by omega)
      refine ⟨k + 1, ?_, ?_⟩
      · rw [hk1]; simp; omega
      · have : 10 ^ (k + 1 + 1) = 10 * 10 ^ (k + 1) := by ring
        rw [this]
        omega

theorem Sprint_length_pos (n : Nat) : 0 < (Sprint n).length := by
  obtain ⟨k, hk, _⟩ := toDigitsCore_bound (n + 1) n [] (by omega)
  unfold Sprint Nat.toDigits
  rw [hk]; omega

theorem lt_pow_Sprint_length (n : Nat) : n < 10 ^ (Sprint n).length := by
  obtain ⟨k, hk, hlt⟩ := toDigitsCore_bound (n + 1) n [] (by omega)
  unfold Sprint Nat.toDigits
  rw [hk]
  simpa using hlt

theorem Sprint_length_mono {x n : Nat} (h : x ≤ n) :
    (Sprint x).length ≤ (Sprint n).length := by
  have hn := lt_pow_Sprint_length n
  exact Nat.toDigitsCore_length 10 (by norm_num) (x + 1) x (Sprint n).length
    (by omega) (Sprint_length_pos n)

theorem padZero_length {w x : Nat} (h : (Sprint x).length ≤ w) :
    (padZero w x).length = w := by
  unfold padZero
  simp only [List.length_append, List.length_replicate]
  omega

theorem padZero_self (n : Nat) : padZero (Sprint n).length n = Sprint n := by
  unfold padZero
  simp

theorem partSuffix_length (totalParts i : Nat) (h1 : 1 < totalParts)
    (hi : i < totalParts) :
    (partSuffix totalParts i).length = 10 + 2 * (Sprint totalParts).length := by
  unfold partSuffix
  rw [if_pos h1]
  simp only [List.length_append, List.length_cons, List.length_nil]
  rw [padZero_length (Sprint_length_mono (by omega : i + 1 ≤ totalParts)),
    padZero_length (le_refl _)]
  omega

theorem partSuffix_inj (totalParts i j : Nat) (h1 : 1 < totalParts)
    (h : partSuffix totalParts i = partSuffix totalParts j) : i = j := by
  unfold partSuffix at h
  rw [if_pos h1, if_pos h1] at h
  simp only [List.append_assoc, List.cons_append, List.nil_append, List.cons.injEq,
    true_and] at h
  have h2 := List.append_cancel_right h
  have h3 := congrArg digitsValue h2
  rw [digitsValue_padZero, digitsValue_padZero] at h3
  omega

/-- C10: for `N` volumes and the 1-based index `X = i + 1`, the path `Write`
creates is the output name unchanged when `N = 1`; when `N > 1` it is the
output name without its extension, then ` Part `, the decimal digits of `X`
behind as many zeros as it takes to reach the number of digits of `N`, then
` of `, the decimal digits of `N`, then the extension; hence for `N > 1` the
`N` paths have the same length and are pairwise distinct. -/
theorem volumePath_spec (output : List Char) (N i : Nat) (hi : i < N) :
    (N = 1 → volumePath output N i = output) ∧
    (1 < N →
      ∃ zeros : Nat,
        zeros + (Sprint (i + 1)).length = (Sprint N).length ∧
        volumePath output N i =
          output.take (output.length - (Ext output).length) ++
            [' ', 'P', 'a', 'r', 't', ' '] ++
            (List.replicate zeros '0' ++ Sprint (i + 1)) ++
            [' ', 'o', 'f', ' '] ++ Sprint N ++ Ext output) ∧
    output.take (output.length - (Ext output).length) ++ Ext output = output ∧
    (1 < N → ∀ j, j < N →
      (volumePath output N j).length = (volumePath output N i).length ∧
      (volumePath output N j = volumePath output N i → j = i)) := by
  refine ⟨?_, ?_, take_append_Ext output, ?_⟩
  · intro h1
    subst h1
    simp [volumePath, partSuffix, take_append_Ext]
  · intro h1
    have hmono := Sprint_length_mono (by omega : i + 1 ≤ N)
    refine ⟨(Sprint N).length - (Sprint (i + 1)).length, by omega, ?_⟩
    unfold volumePath partSuffix
    rw [if_pos h1]
    simp only [padZero_self]
    unfold padZero
    simp
  · intro h1 j hj
    constructor
    · unfold volumePath
      simp only [List.length_append]
      rw [partSuffix_length N j h1 hj, partSuffix_length N i h1 hi]
    · intro h
      unfold volumePath at h
      simp only [List.append_assoc] at h
      have h2 := List.append_cancel_left h
      have h3 := List.append_cancel_right h2
      exact partSuffix_inj N j i h1 h3

/-- Witness of C10: volume 3 of 12 of `out.epub`. -/
theorem volumePath_spec_witness :
    2 < 12 ∧
    ((12 = 1 → volumePath ['o', 'u', 't', '.', 'e', 'p', 'u', 'b'] 12 2 =
        ['o', 'u', 't', '.', 'e', 'p', 'u', 'b']) ∧
    (1 < 12 →
      ∃ zeros : Nat,
        zeros + (Sprint (2 + 1)).length = (Sprint 12).length ∧
        volumePath ['o', 'u', 't', '.', 'e', 'p', 'u', 'b'] 12 2 =
          (['o', 'u', 't', '.', 'e', 'p', 'u', 'b'] : List Char).take
              ((['o', 'u', 't', '.', 'e', 'p', 'u', 'b'] : List Char).length -
                (Ext ['o', 'u', 't', '.', 'e', 'p', 'u', 'b']).length) ++
            [' ', 'P', 'a', 'r', 't', ' '] ++
            (List.replicate zeros '0' ++ Sprint (2 + 1)) ++
            [' ', 'o', 'f', ' '] ++ Sprint 12 ++
            Ext ['o', 'u', 't', '.', 'e', 'p', 'u', 'b']) ∧
    (['o', 'u', 't', '.', 'e', 'p', 'u', 'b'] : List Char).take
          ((['o', 'u', 't', '.', 'e', 'p', 'u', 'b'] : List Char).length -
            (Ext ['o', 'u', 't', '.', 'e', 'p', 'u', 'b']).length) ++
        Ext ['o', 'u', 't', '.', 'e', 'p', 'u', 'b'] =
      ['o', 'u', 't', '.', 'e', 'p', 'u', 'b'] ∧
    (1 < 12 → ∀ j, j < 12 →
      (volumePath ['o', 'u', 't', '.', 'e', 'p', 'u', 'b'] 12 j).length =
        (volumePath ['o', 'u', 't', '.', 'e', 'p', 'u', 'b'] 12 2).length ∧
      (volumePath ['o', 'u', 't', '.', 'e', 'p', 'u', 'b'] 12 j =
        volumePath ['o', 'u', 't', '.', 'e', 'p', 'u', 'b'] 12 2 → j = 2))) :=
  ⟨by decide, volumePath_spec ['o', 'u', 't', '.', 'e', 'p', 'u', 'b'] 12 2 (by decide)⟩

/-! ## Lemmas: a volume is closed only when the next page does not fit -/

theorem u64_le (n : Nat) : u64 n ≤ n := Nat.mod_le _ _

theorem imgSize_le (size : Image → Nat) (a : Image) :
    imgSize size a ≤ u64 (size a) + xhtmlSize := by
  unfold imgSize; exact u64_le _

theorem baseSize_le (o : Options) (size : Image → Nat) (cover : Image) :
    baseSize o size cover ≤ 16 * 1024 + coverBytes o size cover 0 := by
  have h1 : u64 (u64 (16 * 1024) + u64 (size cover)) ≤ 16 * 1024 + u64 (size cover) :=
    le_trans (u64_le _) (Nat.add_le_add_right (u64_le _) _)
  have h2 : u64 (u64 (size cover)) ≤ u64 (size cover) := u64_le _
  unfold baseSize coverBytes
  cases hcov : o.Image.HasCover
  · simpa using h1
  · rw [if_pos rfl, if_neg (by simp)]
    refine le_trans (u64_le _) ?_
    omega

/-- In `uint64` arithmetic the running size restarts, after a close, at the
16 KiB overhead plus twice the cover bytes. -/
theorem restartSize_u64 (o : Options) (size : Image → Nat) (cover : Image) :
    restartSize o size cover = u64 (16 * 1024 + 2 * u64 (size cover)) := by
  have hc : u64 (u64 (size cover)) = u64 (size cover) := u64_eq (u64_lt _)
  have h16 : u64 (16 * 1024) = 16 * 1024 := u64_eq (by norm_num)
  have key : u64 (u64 (16 * 1024 + u64 (size cover)) + u64 (size cover)) =
      u64 (16 * 1024 + 2 * u64 (size cover)) := by
    unfold u64
    rw [Nat.mod_add_mod]
    congr 1
    omega
  unfold restartSize baseSize
  cases hcov : o.Image.HasCover
  · simp only [hc, h16, Bool.not_false, if_true, Bool.false_eq_true, if_false]
    exact key
  · simp only [hc, h16, Bool.not_true, if_true, Bool.false_eq_true, if_false]
    exact key

theorem restartSize_le (o : Options) (size : Image → Nat) (cover : Image) :
    restartSize o size cover ≤ 16 * 1024 + 2 * u64 (size cover) := by
  rw [restartSize_u64]; exact u64_le _

theorem closedWhenFull_nil (o : Options) (size : Image → Nat) (cover : Image) :
    ClosedWhenFull o size cover [] := by
  intro k V W h; simp at h

/-- Appending a volume keeps `ClosedWhenFull` when the new volume was opened on
a page that did not fit. -/
theorem closedWhenFull_append (o : Options) (size : Image → Nat) (cover : Image)
    (parts : List epubPart) (current : List Image)
    (hc : ClosedWhenFull o size cover parts)
    (ho : OpenedWhenFull o size cover parts current) :
    ClosedWhenFull o size cover (parts ++ [{ Cover := cover, Images := current }]) := by
  intro k V W hV hW
  by_cases hlt : k + 1 < parts.length
  · rw [List.getElem?_append_left (by omega)] at hV
    rw [List.getElem?_append_left hlt] at hW
    exact hc k V W hV hW
  · by_cases heq : k + 1 = parts.length
    · rw [List.getElem?_append_left (by omega)] at hV
      rw [List.getElem?_append_right (by omega)] at hW
      have h0 : k + 1 - parts.length = 0 := by omega
      rw [h0] at hW
      simp only [List.getElem?_cons_zero, Option.some.injEq] at hW
      subst hW
      have hlast : parts.getLast? = some V := by
        rw [List.getLast?_eq_getElem?]
        have : parts.length - 1 = k := by omega
        rw [this]; exact hV
      obtain ⟨q, tl, h1, h2⟩ := ho V hlast
      have hk : parts.length - 1 = k := by omega
      rw [hk] at h2
      exact ⟨q, tl, h1, h2⟩
    · rw [List.getElem?_eq_none (by simp; omega)] at hW
      cases hW

/-- The running size never exceeds the accounted cost of the volume in
progress, whether or not a sum has wrapped. -/
theorem finish_foldl_closed (o : Options) (size : Image → Nat) (cover : Image) :
    ∀ (l : List Image) (st : LoopState),
      st.currentSize ≤
        16 * 1024 + coverBytes o size cover st.parts.length +
          totalBytes size st.currentImages →
      ClosedWhenFull o size cover st.parts →
      OpenedWhenFull o size cover st.parts st.currentImages →
      ClosedWhenFull o size cover (finish cover (l.foldl (loopStep o size cover) st)) := by
  intro l
  induction l with
  | nil =>
    intro st _ hc ho
    simp only [List.foldl_nil, finish]
    split_ifs with hpos
    · exact closedWhenFull_append o size cover st.parts st.currentImages hc ho
    · exact hc
  | cons a l ih =>
    intro st hcs hc ho
    rw [List.foldl_cons]
    have hia := imgSize_le size a
    by_cases hclose : maxSize o > 0 ∧ st.currentImages.length > 0 ∧
        u64 (st.currentSize + imgSize size a) > maxSize o
    · rw [loopStep_close o size cover st a hclose]
      refine ih _ ?_ ?_ ?_
      · show u64 (restartSize o size cover + imgSize size a) ≤ _
        have h1 := u64_le (restartSize o size cover + imgSize size a)
        have h2 := restartSize_le o size cover
        simp only [List.length_append, List.length_singleton, coverBytes_succ,
          totalBytes_cons, totalBytes_nil]
        omega
      · exact closedWhenFull_append o size cover st.parts st.currentImages hc ho
      · intro V hV
        rw [List.getLast?_concat, Option.some.injEq] at hV
        subst hV
        refine ⟨a, [], rfl, ?_⟩
        have h1 := u64_le (st.currentSize + imgSize size a)
        have h2 : maxSize o < u64 (st.currentSize + imgSize size a) := hclose.2.2
        simp only [List.length_append, List.length_singleton, Nat.add_sub_cancel]
        unfold partCost
        show maxSize o < 16 * 1024 + coverBytes o size cover st.parts.length +
          totalBytes size st.currentImages + (u64 (size a) + xhtmlSize)
        omega
    · rw [loopStep_keep o size cover st a hclose]
      refine ih _ ?_ hc ?_
      · show u64 (st.currentSize + imgSize size a) ≤ _
        have h1 := u64_le (st.currentSize + imgSize size a)
        simp only [totalBytes_append, totalBytes_cons, totalBytes_nil]
        omega
      · intro V hV
        obtain ⟨q, tl, h1, h2⟩ := ho V hV
        exact ⟨q, tl ++ [a], by show st.currentImages ++ [a] = _; rw [h1]; rfl, h2⟩

theorem pack_closed (o : Options) (size : Image → Nat) (cover : Image) (l : List Image) :
    ClosedWhenFull o size cover (pack o size cover l) := by
  unfold pack
  refine finish_foldl_closed o size cover l _ ?_ ?_ ?_
  · show baseSize o size cover ≤ _
    have := baseSize_le o size cover
    simpa [initState, totalBytes_nil] using this
  · exact closedWhenFull_nil o size cover
  · intro V hV; simp [initState] at hV

/-- C14: for every ceiling (in particular C > 0) and whatever the sizes, every
two consecutive volumes `V`, `W` returned by `getParts` are such that the
accounted cost of `V` (16 KiB overhead, cover bytes, its pages) plus the
marginal cost of the first page of `W` (its stored bytes + 1024) is strictly
greater than C; and after a close the running size restarts at the 16 KiB
overhead plus twice the cover bytes. -/
theorem getParts_closed_when_full (o : Options) (env : Env) (loaded : List Image)
    (size : Image → Nat) (cover : Image) (rest : List Image)
    (hload : env.load = .ok loaded) (hsort : sortSlice loaded = cover :: rest)
    (hst : env.storage = .ok size) (hdry : o.Dry = false) :
    ∃ parts, getParts o env = .ok parts ∧
      (∀ k V W, parts[k]? = some V → parts[k + 1]? = some W →
        ∃ q tl, W.Images = q :: tl ∧
          maxSize o < partCost o size cover k V + (u64 (size q) + xhtmlSize)) ∧
      restartSize o size cover = u64 (16 * 1024 + 2 * u64 (size cover)) :=
  ⟨_, getParts_nondry o env loaded size cover rest hload hsort hst hdry,
    pack_closed o size cover _, restartSize_u64 o size cover⟩

/-- Witness of C14: five pages of 9 MB behind a 1000-byte cover, 20 MB
ceiling, packed two by two. -/
theorem getParts_closed_when_full_witness :
    (sortSlice [samplePage 0, samplePage 1, samplePage 2, samplePage 3, samplePage 4,
        samplePage 5] =
      samplePage 0 ::
        [samplePage 1, samplePage 2, samplePage 3, samplePage 4, samplePage 5]) ∧
    ∃ parts,
      getParts (sampleOptions 20 true)
          (sampleEnv [samplePage 0, samplePage 1, samplePage 2, samplePage 3, samplePage 4,
            samplePage 5] (sizeById [1000, 9000000, 9000000, 9000000, 9000000, 9000000])) =
        .ok parts ∧
      (∀ k V W, parts[k]? = some V → parts[k + 1]? = some W →
        ∃ q tl, W.Images = q :: tl ∧
          maxSize (sampleOptions 20 true) <
            partCost (sampleOptions 20 true)
              (sizeById [1000, 9000000, 9000000, 9000000, 9000000, 9000000])
              (samplePage 0) k V +
            (u64 (sizeById [1000, 9000000, 9000000, 9000000, 9000000, 9000000] q) +
              xhtmlSize)) ∧
      restartSize (sampleOptions 20 true)
          (sizeById [1000, 9000000, 9000000, 9000000, 9000000, 9000000]) (samplePage 0) =
        u64 (16 * 1024 +
          2 * u64 (sizeById [1000, 9000000, 9000000, 9000000, 9000000, 9000000]
            (samplePage 0))) :=
  ⟨by decide,
    getParts_closed_when_full (sampleOptions 20 true)
      (sampleEnv [samplePage 0, samplePage 1, samplePage 2, samplePage 3, samplePage 4,
        samplePage 5] (sizeById [1000, 9000000, 9000000, 9000000, 9000000, 9000000]))
      [samplePage 0, samplePage 1, samplePage 2, samplePage 3, samplePage 4, samplePage 5]
      (sizeById [1000, 9000000, 9000000, 9000000, 9000000, 9000000])
      (samplePage 0)
      [samplePage 1, samplePage 2, samplePage 3, samplePage 4, samplePage 5]
      rfl (by decide) rfl rfl⟩

end epub

namespace epubimage

/-- C11: for every source image and every options value, the chain built by
`NewGift` is the sub-list, in the fixed order, of auto-crop, rotate 90 degrees,
contrast, brightness, resize, pixel, in which auto-crop is present iff `Crop`,
the rotation iff `AutoRotate` and width > height, contrast iff `Contrast != 0`,
brightness iff `Brightness != 0`; resize and pixel are always the last two. -/
theorem NewGift_stages (img : SourceImage) (options : Options) :
    (NewGift img options).Filters =
      (allStages img options).filter (fun f =>
        match f with
        | Filter.AutoCrop _ _ _ _ _ => options.Crop
        | Filter.Rotate90 => options.AutoRotate && decide (img.Dx > img.Dy)
        | Filter.Contrast _ => decide (options.Contrast ≠ 0)
        | Filter.Brightness _ => decide (options.Brightness ≠ 0)
        | _ => true) ∧
    List.Sublist (NewGift img options).Filters (allStages img options) ∧
    (Filter.AutoCrop img options.CropRatioLeft options.CropRatioUp
        options.CropRatioRight options.CropRatioBottom ∈ (NewGift img options).Filters ↔
      options.Crop = true) ∧
    (Filter.Rotate90 ∈ (NewGift img options).Filters ↔
      (options.AutoRotate = true ∧ img.Dx > img.Dy)) ∧
    (Filter.Contrast options.Contrast ∈ (NewGift img options).Filters ↔
      options.Contrast ≠ 0) ∧
    (Filter.Brightness options.Brightness ∈ (NewGift img options).Filters ↔
      options.Brightness ≠ 0) ∧
    (∃ front, (NewGift img options).Filters =
      front ++ [Filter.Resize options.ViewWidth options.ViewHeight, Filter.Pixel]) := by
  have heq : (NewGift img options).Filters =
      (allStages img options).filter (fun f =>
        match f with
        | Filter.AutoCrop _ _ _ _ _ => options.Crop
        | Filter.Rotate90 => options.AutoRotate && decide (img.Dx > img.Dy)
        | Filter.Contrast _ => decide (options.Contrast ≠ 0)
        | Filter.Brightness _ => decide (options.Brightness ≠ 0)
        | _ => true) := by
    unfold NewGift allStages GIFT.Add GIFT.SetParallelization GIFT.New
    by_cases h1 : options.Crop = true <;>
    by_cases h2 : (options.AutoRotate && decide (img.Dx > img.Dy)) = true <;>
    by_cases h3 : options.Contrast = 0 <;>
    by_cases h4 : options.Brightness = 0 <;>
    simp [h1, h2, h3, h4, List.filter]
  refine ⟨heq, ?_, ?_, ?_, ?_, ?_, ?_⟩
  · rw [heq]; exact List.filter_sublist _
  · rw [heq]; simp [allStages, List.mem_filter]
  · rw [heq]; simp [allStages, List.mem_filter]
  · rw [heq]; simp [allStages, List.mem_filter]
  · rw [heq]; simp [allStages, List.mem_filter]
  · unfold NewGift GIFT.Add
    exact ⟨_, rfl⟩

theorem addSplitStages_filters (options : Options) (g : GIFT) :
    (addSplitStages options g).Filters =
      g.Filters ++
        ((if options.Contrast ≠ 0 then [Filter.Contrast options.Contrast] else []) ++
          (if options.Brightness ≠ 0 then [Filter.Brightness options.Brightness] else []) ++
          [Filter.Resize options.ViewWidth options.ViewHeight]) := by
  unfold addSplitStages GIFT.Add
  by_cases h3 : options.Contrast = 0 <;>
  by_cases h4 : options.Brightness = 0 <;>
  simp [h3, h4]

theorem addSplitStages_parallelization (options : Options) (g : GIFT) :
    (addSplitStages options g).Parallelization = g.Parallelization := by
  unfold addSplitStages GIFT.Add
  by_cases h3 : options.Contrast = 0 <;>
  by_cases h4 : options.Brightness = 0 <;>
  simp [h3, h4]

theorem NewGift_toneOrResize (img : SourceImage) (options : Options) :
    (NewGift img options).Filters.filter isToneOrResize =
      (if options.Contrast ≠ 0 then [Filter.Contrast options.Contrast] else []) ++
        (if options.Brightness ≠ 0 then [Filter.Brightness options.Brightness] else []) ++
        [Filter.Resize options.ViewWidth options.ViewHeight] := by
  unfold NewGift GIFT.Add GIFT.SetParallelization GIFT.New
  by_cases h1 : options.Crop = true <;>
  by_cases h2 : (options.AutoRotate && decide (img.Dx > img.Dy)) = true <;>
  by_cases h3 : options.Contrast = 0 <;>
  by_cases h4 : options.Brightness = 0 <;>
  simp [h1, h2, h3, h4, List.filter, isToneOrResize]

/-- C12: for every options value `NewGiftSplitDoublePage` returns exactly two
chains; each is a half-crop followed by exactly the contrast, brightness and
resize stages of the unsplit chain of `NewGift` (for any source image), with no
auto-crop and no rotation whatever `Crop` and `AutoRotate` are; the first crops
with the flag `Manga`, the second with its negation, and they agree on
everything else; toggling `Manga` swaps the two chains. -/
theorem NewGiftSplitDoublePage_chains (img : SourceImage) (options : Options) :
    ∃ first second : GIFT,
      NewGiftSplitDoublePage options = [first, second] ∧
      first.Filters =
        Filter.CropSplitDoublePage options.Manga ::
          (NewGift img options).Filters.filter isToneOrResize ∧
      second.Filters =
        Filter.CropSplitDoublePage (!options.Manga) ::
          (NewGift img options).Filters.filter isToneOrResize ∧
      first.Parallelization = second.Parallelization ∧
      (∀ f ∈ first.Filters ++ second.Filters,
        f ≠ Filter.Rotate90 ∧ ∀ i l u r b, f ≠ Filter.AutoCrop i l u r b) ∧
      NewGiftSplitDoublePage { options with Manga := !options.Manga } =
        [second, first] := by
  have hs := addSplitStages_filters options
  have ht := NewGift_toneOrResize img options
  refine ⟨addSplitStages options (GIFT.New [Filter.CropSplitDoublePage options.Manga]),
    addSplitStages options (GIFT.New [Filter.CropSplitDoublePage (!options.Manga)]),
    rfl, ?_, ?_, ?_, ?_, ?_⟩
  · rw [hs, ht]; rfl
  · rw [hs, ht]; rfl
  · rw [addSplitStages_parallelization, addSplitStages_parallelization]; rfl
  · intro f hf
    rw [List.mem_append, hs, hs] at hf
    have hmem : ∀ b : Bool,
        f ∈ (GIFT.New [Filter.CropSplitDoublePage b]).Filters ++
          ((if options.Contrast ≠ 0 then [Filter.Contrast options.Contrast] else []) ++
            (if options.Brightness ≠ 0 then [Filter.Brightness options.Brightness]
             else []) ++
            [Filter.Resize options.ViewWidth options.ViewHeight]) →
        f ≠ Filter.Rotate90 ∧ ∀ i l u r b, f ≠ Filter.AutoCrop i l u r b := by
      intro b hb
      simp only [GIFT.New, List.mem_append, List.mem_singleton] at hb
      rcases hb with hb | (hb | hb) | hb
      · subst hb; simp
      · split_ifs at hb
        · simp only [List.mem_singleton] at hb; subst hb; simp
        · cases hb
      · split_ifs at hb
        · simp only [List.mem_singleton] at hb; subst hb; simp
        · cases hb
      · subst hb; simp
    rcases hf with hf | hf
    · exact hmem _ hf
    · exact hmem _ hf
  · simp [NewGiftSplitDoublePage, addSplitStages]

end epubimage

namespace converter

theorem checkOutput_fields (fs : FileSystem) (d : List Char) (o o1 : Options)
    (h : checkOutput fs d o = .ok o1) :
    o1.LimitMb = o.LimitMb ∧ o1.Brightness = o.Brightness ∧ o1.Contrast = o.Contrast := by
  unfold checkOutput at h
  split_ifs at h with hext
  · cases hs : fs.Stat (fs.Dir o.Output) with
    | error e => rw [hs] at h; cases h
    | ok isDir =>
      rw [hs] at h
      cases isDir
      · simp at h
      · simp at h; subst h; exact ⟨rfl, rfl, rfl⟩
  · cases hs : fs.Stat o.Output with
    | error e => rw [hs] at h; cases h
    | ok isDir =>
      rw [hs] at h
      cases isDir
      · simp at h
      · simp at h; subst h; exact ⟨rfl, rfl, rfl⟩

theorem checkTitleProfile_fields (fs : FileSystem) (d : List Char) (o o1 : Options)
    (h : checkTitleProfile fs d o = .ok o1) :
    o1.LimitMb = o.LimitMb ∧ o1.Brightness = o.Brightness ∧ o1.Contrast = o.Contrast := by
  unfold checkTitleProfile at h
  simp only at h
  split_ifs at h with h1 h2 h3 h4 h5
  all_goals (injection h with h; subst h; exact ⟨rfl, rfl, rfl⟩)

/-- The checks before `LimitMb` leave the three numeric options as they are. -/
theorem validatePaths_fields (fs : FileSystem) (o o1 : Options)
    (h : validatePaths fs o = .ok o1) :
    o1.LimitMb = o.LimitMb ∧ o1.Brightness = o.Brightness ∧ o1.Contrast = o.Contrast := by
  unfold validatePaths at h
  by_cases hin : o.Input = []
  · rw [if_pos hin] at h; cases h
  · rw [if_neg hin] at h
    cases hs : fs.Stat o.Input with
    | error e => rw [hs] at h; cases h
    | ok isDir =>
      rw [hs] at h
      simp only at h
      split at h
      · cases h
      · rename_i o3 hco
        obtain ⟨a1, a2, a3⟩ := checkTitleProfile_fields fs _ o3 o1 h
        obtain ⟨b1, b2, b3⟩ := checkOutput_fields fs _ _ o3 hco
        rw [a1, a2, a3, b1, b2, b3]
        split_ifs <;> exact ⟨rfl, rfl, rfl⟩

theorem validateLimits_ok_iff (o : Options) :
    (∃ o1, validateLimits o = .ok o1) ↔
      ((o.LimitMb = 0 ∨ 20 ≤ o.LimitMb) ∧
        (-100 ≤ o.Brightness ∧ o.Brightness ≤ 100) ∧
        (-100 ≤ o.Contrast ∧ o.Contrast ≤ 100)) := by
  unfold validateLimits
  split_ifs with h1 h2 h3
  · constructor
    · rintro ⟨o1, h⟩; cases h
    · rintro ⟨h, _⟩; omega
  · constructor
    · rintro ⟨o1, h⟩; cases h
    · rintro ⟨_, h, _⟩; omega
  · constructor
    · rintro ⟨o1, h⟩; cases h
    · rintro ⟨_, _, h⟩; omega
  · constructor
    · intro _; omega
    · intro _; exact ⟨o, rfl⟩

/-- C13: when the input, output, title and profile checks of `Validate` pass,
`Validate` returns `nil` if and only if `LimitMb` is 0 or at least 20,
`Brightness` is within -100..100 and `Contrast` is within -100..100; every
negative `LimitMb` and every `LimitMb` in 1..19 is rejected with the `limitmb`
error. -/
theorem Validate_nil_iff (fs : FileSystem) (o o1 : Options)
    (hpaths : validatePaths fs o = .ok o1) :
    ((∃ o2, Validate fs o = .ok o2) ↔
      ((o.LimitMb = 0 ∨ 20 ≤ o.LimitMb) ∧
        (-100 ≤ o.Brightness ∧ o.Brightness ≤ 100) ∧
        (-100 ≤ o.Contrast ∧ o.Contrast ≤ 100))) ∧
    ((o.LimitMb < 0 ∨ (1 ≤ o.LimitMb ∧ o.LimitMb ≤ 19)) →
      Validate fs o = .error .limitMb) := by
  obtain ⟨f1, f2, f3⟩ := validatePaths_fields fs o o1 hpaths
  have hv : Validate fs o = validateLimits o1 := by
    unfold Validate; rw [hpaths]
  rw [hv]
  constructor
  · rw [validateLimits_ok_iff, f1, f2, f3]
  · intro hl
    unfold validateLimits
    rw [if_pos (by rw [f1]; omega)]

/-- Witness of C13: a 20 MB limit with brightness 10 and contrast -10. -/
theorem Validate_nil_iff_witness :
    (∃ o1, validatePaths sampleFileSystem (sampleOptions 20 10 (-10)) = .ok o1) ∧
    ((∃ o2, Validate sampleFileSystem (sampleOptions 20 10 (-10)) = .ok o2) ↔
      (((sampleOptions 20 10 (-10)).LimitMb = 0 ∨ 20 ≤ (sampleOptions 20 10 (-10)).LimitMb) ∧
        (-100 ≤ (sampleOptions 20 10 (-10)).Brightness ∧
          (sampleOptions 20 10 (-10)).Brightness ≤ 100) ∧
        (-100 ≤ (sampleOptions 20 10 (-10)).Contrast ∧
          (sampleOptions 20 10 (-10)).Contrast ≤ 100))) ∧
    (((sampleOptions 20 10 (-10)).LimitMb < 0 ∨
        (1 ≤ (sampleOptions 20 10 (-10)).LimitMb ∧
          (sampleOptions 20 10 (-10)).LimitMb ≤ 19)) →
      Validate sampleFileSystem (sampleOptions 20 10 (-10)) = .error .limitMb) :=
  ⟨⟨_, rfl⟩,
    Validate_nil_iff sampleFileSystem (sampleOptions 20 10 (-10)) _ rfl⟩

end converter

namespace options

/-- C15: `ShowConfig` stops with a runtime fault exactly when `GetProfile`
returns `nil` and `AspectRatio` is negative; in every other case it returns a
string. -/
theorem ShowConfig_crash_iff {F : Type} (ops : Float64Ops F) (o : Options F) :
    (ShowConfig ops o = .crash ↔
      (o.GetProfile = none ∧ ops.gtZero o.AspectRatio = false ∧
        ops.ltZero o.AspectRatio = true)) ∧
    (¬ (o.GetProfile = none ∧ ops.gtZero o.AspectRatio = false ∧
        ops.ltZero o.AspectRatio = true) →
      ∃ s, ShowConfig ops o = .ok s) := by
  unfold ShowConfig aspectRatio
  cases hg : ops.gtZero o.AspectRatio <;> cases hl : ops.ltZero o.AspectRatio <;>
    cases hp : o.GetProfile <;> simp

/-- Witness of C15, the failing input: the default options with the unknown
profile `nope` and a negative aspect ratio. -/
theorem ShowConfig_crash_iff_witness :
    ((sampleOptions "nope" (-1)).GetProfile = none ∧
      sampleFloat.gtZero (sampleOptions "nope" (-1)).AspectRatio = false ∧
      sampleFloat.ltZero (sampleOptions "nope" (-1)).AspectRatio = true) ∧
    ShowConfig sampleFloat (sampleOptions "nope" (-1)) = .crash :=
  ⟨⟨by decide, by decide, by decide⟩,
    (ShowConfig_crash_iff sampleFloat (sampleOptions "nope" (-1))).1.2
      ⟨by decide, by decide, by decide⟩⟩

end options
